import Mathlib

/-!
# myfind: the matcher, the directory walk and the coordinator

A shallow embedding of `myfind.c`.

* A C string is the list of its bytes before the terminating NUL; every byte is a `Char`.
* The file system is an oracle from path strings to what `stat` and `opendir` see there.
  It does not change while the program runs. `opendir` succeeds on directories only.
* A call that does not return normally (recursion deeper than the fuel, or the null
  pointer `strrchr` hands back for a path without a slash) is `none`. The fuel stands for
  the number of nested calls the stack of the process holds: a process whose call does not
  return is killed by a signal, with what it has printed so far on standard output.
* Standard output is the list of the lines printed so far, kept in structured form; a line
  is on the stream as soon as `printf` is called, as on a terminal.
* `fork` is an oracle too: it fails or it names the pid of the child. The child runs on a
  copy of the variables of `main`, the parent waits for it and reads its exit status.
-/

namespace MyFind

/-! ## Strings -/

/-- A C string without its terminating NUL. -/
abbrev CStr := List Char

/-- The path separator. -/
def slash : Char := Char.ofNat 47

/-- The name of the self pseudo-entry. -/
def dot : CStr := [Char.ofNat 46]

/-- The name of the parent pseudo-entry. -/
def dotdot : CStr := [Char.ofNat 46, Char.ofNat 46]

/-- The constant of `#define MAX_PATH_LEN 1024`. -/
def MAX_PATH_LEN : Nat := 1024

/-- The `strcmp` of libc: negative, zero or positive; only the sign is specified. -/
def strcmp : CStr → CStr → Int
  | [], [] => 0
  | [], _ :: _ => -1
  | _ :: _, [] => 1
  | a :: as, b :: bs =>
    if a = b then strcmp as bs else if a.toNat < b.toNat then -1 else 1

/-- The `tolower` of libc in the C locale (the program never calls `setlocale`). -/
def tolower (c : Char) : Char :=
  if 65 ≤ c.toNat ∧ c.toNat ≤ 90 then Char.ofNat (c.toNat + 32) else c

/-- The `strcasecmp` of libc in the C locale: `strcmp` on the lowered bytes. -/
def strcasecmp : CStr → CStr → Int
  | [], [] => 0
  | [], _ :: _ => -1
  | _ :: _, [] => 1
  | a :: as, b :: bs =>
    if tolower a = tolower b then strcasecmp as bs
    else if (tolower a).toNat < (tolower b).toNat then -1 else 1

/-- The call `strrchr(s, c)`: the tail of `s` that starts at the last occurrence of `c`,
or `none` (the null pointer) when `c` does not occur. -/
def strrchr : CStr → Char → Option CStr
  | [], _ => none
  | a :: as, c =>
    match strrchr as c with
    | some t => some t
    | none => if a = c then some (a :: as) else none

/-- The call `snprintf(buf, size, ...)`: of the formatted text, at most `size - 1` bytes
are stored. -/
def snprintf (size : Nat) (formatted : CStr) : CStr :=
  if size = 0 then [] else formatted.take (size - 1)

/-! ## The file system -/

/-- The file type bits of `st_mode`. -/
inductive FileType where
  | regular
  | directory
  | other
  deriving DecidableEq, Repr

/-- What a path resolves to. A directory carries what `opendir`/`readdir` yield for it:
`none` when it cannot be opened, otherwise the names in listing order. -/
inductive Node where
  | regular
  | directory (listing : Option (List CStr))
  | other
  deriving DecidableEq, Repr

/-- The file system seen through path strings; `none` where `stat` fails. -/
abbrev FileSystem := CStr → Option Node

/-- The `st_mode` file type of a node. -/
def Node.fileType : Node → FileType
  | .regular => .regular
  | .directory _ => .directory
  | .other => .other

/-- The call `stat(path, &statbuf)`: `none` for the return value -1. -/
def stat (fs : FileSystem) (path : CStr) : Option FileType :=
  (fs path).map Node.fileType

/-- The call `opendir(path)` followed by the whole `readdir` sequence: `none` for `NULL`. -/
def opendir (fs : FileSystem) (path : CStr) : Option (List CStr) :=
  match fs path with
  | some (.directory listing) => listing
  | _ => none

/-- The macro `S_ISREG`. -/
def S_ISREG (m : FileType) : Bool := m = .regular

/-- The macro `S_ISDIR`. -/
def S_ISDIR (m : FileType) : Bool := m = .directory

/-! ## Output and process state -/

/-- A line on standard output. -/
inductive Line where
  /-- The match record `"%d: %s: %s\n"` with `getpid()`, `fileName`, `fullPath`. -/
  | found (pid : Nat) (fileName fullPath : CStr)
  /-- The line `"Process ID %d was terminated.\n"`. -/
  | terminated (child_pid : Nat)
  /-- The summary `"No files in %s found\n"`. -/
  | noFiles (searchPath : CStr)
  deriving DecidableEq, Repr

/-- What the walk reads and writes: standard output and the `int` behind `fileFound`. -/
structure Walk where
  stdout : List Line
  fileFound : Int
  deriving DecidableEq, Repr

/-! ## searchFile and searchDirectory -/

/-- The function `searchFile(fullPath, fileName, caseInsensitive, fileFound)`, run by the
process `pid`. Without a separator in `fullPath`, `strrchr` yields the null pointer and the
comparison reads from address 1: the call does not return. -/
def searchFile (fs : FileSystem) (pid : Nat) (fullPath fileName : CStr)
    (caseInsensitive : Int) (w : Walk) : Option Walk :=
  match stat fs fullPath with
  | none => some w
  | some st_mode =>
    if S_ISREG st_mode then
      match strrchr fullPath slash with
      | none => none
      | some t =>
        if (caseInsensitive ≠ 0 ∧ strcasecmp fileName (t.drop 1) = 0) ∨
            (caseInsensitive = 0 ∧ strcmp fileName (t.drop 1) = 0) then
          some ⟨w.stdout ++ [Line.found pid fileName fullPath], 1⟩
        else some w
    else some w

/-- The `fullPath` buffer after
`snprintf(fullPath, MAX_PATH_LEN, "%s/%s", searchPath, d_name)`. -/
def fullPathOf (searchPath d_name : CStr) : CStr :=
  snprintf MAX_PATH_LEN (searchPath ++ slash :: d_name)

/-- The `while ((entry = readdir(dir)) != NULL)` loop of `searchDirectory` over the entries
still to come; `recurse` is the recursive call of `searchDirectory`. -/
def readdirLoop (fs : FileSystem) (pid : Nat) (fileName : CStr)
    (recursive caseInsensitive : Int) (recurse : CStr → Walk → Option Walk)
    (searchPath : CStr) : List CStr → Walk → Option Walk
  | [], w => some w
  | d_name :: rest, w =>
    if d_name = dot ∨ d_name = dotdot then
      readdirLoop fs pid fileName recursive caseInsensitive recurse searchPath rest w
    else
      match stat fs (fullPathOf searchPath d_name) with
      | none => readdirLoop fs pid fileName recursive caseInsensitive recurse searchPath rest w
      | some st_mode =>
        let r :=
          if S_ISDIR st_mode ∧ recursive ≠ 0 then recurse (fullPathOf searchPath d_name) w
          else searchFile fs pid (fullPathOf searchPath d_name) fileName caseInsensitive w
        match r with
        | none => none
        | some w1 =>
          readdirLoop fs pid fileName recursive caseInsensitive recurse searchPath rest w1

/-- The function `searchDirectory(searchPath, fileName, recursive, caseInsensitive,
fileFound)`, run by the process `pid`, with `fuel` bounding the depth of the recursion. -/
def searchDirectory (fs : FileSystem) (pid : Nat) (fileName : CStr)
    (recursive caseInsensitive : Int) : Nat → CStr → Walk → Option Walk
  | 0, _, _ => none
  | fuel + 1, searchPath, w =>
    match opendir fs searchPath with
    | none => some w
    | some entries =>
      readdirLoop fs pid fileName recursive caseInsensitive
        (searchDirectory fs pid fileName recursive caseInsensitive fuel) searchPath entries w

/-- The loop of `searchDirectory` once more, keeping the state in which it ends: with `true`
the state when the loop is left, with `false` the state in which the process faults (in
`searchFile` nothing is printed before the fault). `recurse` is the recursive call. -/
def readdirLoopState (fs : FileSystem) (pid : Nat) (fileName : CStr)
    (recursive caseInsensitive : Int) (recurse : CStr → Walk → Walk × Bool)
    (searchPath : CStr) : List CStr → Walk → Walk × Bool
  | [], w => (w, true)
  | d_name :: rest, w =>
    if d_name = dot ∨ d_name = dotdot then
      readdirLoopState fs pid fileName recursive caseInsensitive recurse searchPath rest w
    else
      match stat fs (fullPathOf searchPath d_name) with
      | none =>
        readdirLoopState fs pid fileName recursive caseInsensitive recurse searchPath rest w
      | some st_mode =>
        if S_ISDIR st_mode ∧ recursive ≠ 0 then
          match recurse (fullPathOf searchPath d_name) w with
          | (w1, true) =>
            readdirLoopState fs pid fileName recursive caseInsensitive recurse searchPath rest w1
          | (w1, false) => (w1, false)
        else
          match searchFile fs pid (fullPathOf searchPath d_name) fileName caseInsensitive w with
          | some w1 =>
            readdirLoopState fs pid fileName recursive caseInsensitive recurse searchPath rest w1
          | none => (w, false)

/-- The function `searchDirectory` once more, keeping the state in which the call ends: with
`true` the state on return, with `false` the state in which the process faults, which for
the recursion is the state in which the call number `fuel + 1` is entered. -/
def searchDirectoryState (fs : FileSystem) (pid : Nat) (fileName : CStr)
    (recursive caseInsensitive : Int) : Nat → CStr → Walk → Walk × Bool
  | 0, _, w => (w, false)
  | fuel + 1, searchPath, w =>
    match opendir fs searchPath with
    | none => (w, true)
    | some entries =>
      readdirLoopState fs pid fileName recursive caseInsensitive
        (searchDirectoryState fs pid fileName recursive caseInsensitive fuel) searchPath entries w

/-! ## main -/

/-- A line on standard error. -/
inductive ErrLine where
  /-- The usage text printed for an invalid option. -/
  | usage
  /-- The text `"Insufficient arguments\n"`. -/
  | insufficientArguments
  /-- The text of `perror("fork")`. -/
  | perrorFork
  deriving DecidableEq, Repr

/-- The constant `EXIT_FAILURE`. -/
def EXIT_FAILURE : Int := 1

/-- The process after it has ended: its exit status and what it and its children wrote. -/
structure Exit where
  status : Int
  stdout : List Line
  stderr : List ErrLine
  deriving DecidableEq, Repr

/-- The `while ((opt = getopt(argc, argv, "Ri")) != -1)` loop over the values `getopt`
returns before -1; `none` when an invalid option ends the program with the usage text. -/
def getoptLoop : List Char → Int → Int → Option (Int × Int)
  | [], recursive, caseInsensitive => some (recursive, caseInsensitive)
  | opt :: rest, recursive, caseInsensitive =>
    if opt = Char.ofNat 82 then getoptLoop rest 1 caseInsensitive
    else if opt = Char.ofNat 105 then getoptLoop rest recursive 1
    else none

/-- The variables of `main` that its loop reads and writes, and standard output. -/
structure Vars where
  fileFound : Int
  foundInCurrentProcess : Int
  stdout : List Line
  deriving DecidableEq, Repr

/-- The child branch after `fork()`: the child owns a copy of the variables of `main`, walks
the tree and calls `exit(foundInCurrentProcess)`. The result is the argument of `exit` and
standard output at that moment; `none` when the child does not reach `exit`. -/
def child (fs : FileSystem) (fuel : Nat) (pid : Nat) (searchPath fileName : CStr)
    (recursive caseInsensitive : Int) (v : Vars) : Option (Int × List Line) :=
  match searchDirectory fs pid fileName recursive caseInsensitive fuel searchPath
      ⟨v.stdout, v.foundInCurrentProcess⟩ with
  | none => none
  | some w => some (w.fileFound, w.stdout)

/-- The macro `WEXITSTATUS` on the status of a child that called `exit(code)`: the low
eight bits of `code`. -/
def WEXITSTATUS (code : Int) : Int := code % 256

/-- The parent branch after `waitpid` has returned for a child that exited with `code`
(so `WIFEXITED(status)` holds) and left standard output as `out`. -/
def parentAfterWait (v : Vars) (child_pid : Nat) (code : Int) (out : List Line) : Vars :=
  if WEXITSTATUS code ≠ 0 then
    ⟨1, v.foundInCurrentProcess, out ++ [Line.terminated child_pid]⟩
  else if WEXITSTATUS code = 0 ∧ v.fileFound = 0 then
    ⟨0, v.foundInCurrentProcess, out⟩
  else
    ⟨v.fileFound, v.foundInCurrentProcess, out⟩

/-- How the loop of `main` over the file names ends. -/
inductive LoopEnd where
  /-- The loop ran to its end with these variables. -/
  | finished (v : Vars)
  /-- The call `exit(EXIT_FAILURE)` after `fork` failed. -/
  | exited (e : Exit)
  deriving DecidableEq, Repr

/-- Standard output after a child that faulted during the walk was killed: what stood
there at the `fork` and what the child printed up to the fault. -/
def killedChild (fs : FileSystem) (fuel : Nat) (pid : Nat) (searchPath fileName : CStr)
    (recursive caseInsensitive : Int) (v : Vars) : List Line :=
  (searchDirectoryState fs pid fileName recursive caseInsensitive fuel searchPath
    ⟨v.stdout, v.foundInCurrentProcess⟩).1.stdout

/-- The `while (optind < argc)` loop of `main` over the file names still to come. `fork k`
is what the call number `k` of `fork()` returns in the parent: `none` for -1, otherwise the
pid of the child. For a child that does not reach `exit` and is killed, `WIFEXITED(status)`
is false: the parent takes neither branch and goes on with the next file name. -/
def mainLoop (fs : FileSystem) (fork : Nat → Option Nat) (fuel : Nat) (searchPath : CStr)
    (recursive caseInsensitive : Int) : List CStr → Nat → Vars → Option LoopEnd
  | [], _, v => some (.finished v)
  | fileName :: rest, k, v =>
    match fork k with
    | none => some (.exited ⟨EXIT_FAILURE, v.stdout, [ErrLine.perrorFork]⟩)
    | some child_pid =>
      match child fs fuel child_pid searchPath fileName recursive caseInsensitive v with
      | none =>
        mainLoop fs fork fuel searchPath recursive caseInsensitive rest (k + 1)
          ⟨v.fileFound, v.foundInCurrentProcess,
            killedChild fs fuel child_pid searchPath fileName recursive caseInsensitive v⟩
      | some (code, out) =>
        mainLoop fs fork fuel searchPath recursive caseInsensitive rest (k + 1)
          (parentAfterWait v child_pid code out)

/-- The function `main`: `opts` are the values `getopt` returns before -1 and `args` is
`argv` from `optind` on. -/
def main (fs : FileSystem) (fork : Nat → Option Nat) (fuel : Nat) (opts : List Char)
    (args : List CStr) : Option Exit :=
  match getoptLoop opts 0 0 with
  | none => some ⟨EXIT_FAILURE, [], [ErrLine.usage]⟩
  | some (recursive, caseInsensitive) =>
    match args with
    | [] => some ⟨EXIT_FAILURE, [], [ErrLine.insufficientArguments]⟩
    | [_] => some ⟨EXIT_FAILURE, [], [ErrLine.insufficientArguments]⟩
    | searchPath :: fileName :: rest =>
      match mainLoop fs fork fuel searchPath recursive caseInsensitive (fileName :: rest) 0
          ⟨0, 0, []⟩ with
      | none => none
      | some (.exited e) => some e
      | some (.finished v) =>
        if v.fileFound = 0 then some ⟨0, v.stdout ++ [Line.noFiles searchPath], []⟩
        else some ⟨0, v.stdout, []⟩

/-! ## The words of the specification -/

/-- The text `B` is the base name of `path`: what follows the last separator. -/
def IsBaseName (path B : CStr) : Prop :=
  ∃ pre, path = pre ++ slash :: B ∧ slash ∉ B

/-- An upper-case ASCII letter, `A` to `Z`. -/
def IsUpperAscii (c : Char) : Prop := 65 ≤ c.toNat ∧ c.toNat ≤ 90

/-- Two bytes are the same under ASCII case folding: they are equal, or one is an upper-case
letter and the other is its lower-case form. -/
def FoldEq (a b : Char) : Prop :=
  a = b ∨ (IsUpperAscii a ∧ b.toNat = a.toNat + 32) ∨ (IsUpperAscii b ∧ a.toNat = b.toNat + 32)

/-- The names are equal under the active case rule: byte for byte when `caseInsensitive`
is zero, byte for byte under ASCII case folding otherwise. -/
def NameEq (caseInsensitive : Int) (N B : CStr) : Prop :=
  if caseInsensitive = 0 then N = B else List.Forall₂ FoldEq N B

/-- The path `p` is a match for `N`: `stat` sees a regular file there and its base name
equals `N` under the case rule. -/
def IsMatch (fs : FileSystem) (caseInsensitive : Int) (N p : CStr) : Prop :=
  stat fs p = some FileType.regular ∧ ∃ B, IsBaseName p B ∧ NameEq caseInsensitive N B

/-- The path `p` is an immediate entry of the directory `d`: the listing of `d` names it,
and it is neither of the two pseudo-entries. -/
def Entry (fs : FileSystem) (d p : CStr) : Prop :=
  ∃ es e, opendir fs d = some es ∧ e ∈ es ∧ e ≠ dot ∧ e ≠ dotdot ∧ p = d ++ slash :: e

/-- The path `p` is an entry at some depth under the directory `d`. -/
inductive Under (fs : FileSystem) : CStr → CStr → Prop where
  | here {d p : CStr} : Entry fs d p → Under fs d p
  | deeper {d x p : CStr} :
      Entry fs d x → stat fs x = some FileType.directory → Under fs x p → Under fs d p

/-! ## The walk as a list of reported paths -/

/-- The paths `searchFile` reports for `fullPath`: that path or nothing. -/
def hitsFile (fs : FileSystem) (caseInsensitive : Int) (fileName fullPath : CStr) :
    Option (List CStr) :=
  match stat fs fullPath with
  | none => some []
  | some st_mode =>
    if S_ISREG st_mode then
      match strrchr fullPath slash with
      | none => none
      | some t =>
        if (caseInsensitive ≠ 0 ∧ strcasecmp fileName (t.drop 1) = 0) ∨
            (caseInsensitive = 0 ∧ strcmp fileName (t.drop 1) = 0) then
          some [fullPath]
        else some []
    else some []

/-- The paths the loop over the entries reports, in order. -/
def hitsLoop (fs : FileSystem) (fileName : CStr) (recursive caseInsensitive : Int)
    (recurse : CStr → Option (List CStr)) (searchPath : CStr) : List CStr → Option (List CStr)
  | [] => some []
  | d_name :: rest =>
    if d_name = dot ∨ d_name = dotdot then
      hitsLoop fs fileName recursive caseInsensitive recurse searchPath rest
    else
      match stat fs (fullPathOf searchPath d_name) with
      | none => hitsLoop fs fileName recursive caseInsensitive recurse searchPath rest
      | some st_mode =>
        let r :=
          if S_ISDIR st_mode ∧ recursive ≠ 0 then recurse (fullPathOf searchPath d_name)
          else hitsFile fs caseInsensitive fileName (fullPathOf searchPath d_name)
        match r with
        | none => none
        | some a =>
          match hitsLoop fs fileName recursive caseInsensitive recurse searchPath rest with
          | none => none
          | some b => some (a ++ b)

/-- The paths `searchDirectory` reports, in order. -/
def hitsDir (fs : FileSystem) (fileName : CStr) (recursive caseInsensitive : Int) :
    Nat → CStr → Option (List CStr)
  | 0, _ => none
  | fuel + 1, searchPath =>
    match opendir fs searchPath with
    | none => some []
    | some entries =>
      hitsLoop fs fileName recursive caseInsensitive
        (hitsDir fs fileName recursive caseInsensitive fuel) searchPath entries

/-- The paths reported while the loop handles the single entry `d_name`. -/
def hitsEntry (fs : FileSystem) (fileName : CStr) (recursive caseInsensitive : Int)
    (recurse : CStr → Option (List CStr)) (searchPath d_name : CStr) : Option (List CStr) :=
  if d_name = dot ∨ d_name = dotdot then some []
  else
    match stat fs (fullPathOf searchPath d_name) with
    | none => some []
    | some st_mode =>
      if S_ISDIR st_mode ∧ recursive ≠ 0 then recurse (fullPathOf searchPath d_name)
      else hitsFile fs caseInsensitive fileName (fullPathOf searchPath d_name)

/-- The walk state after the paths `ps` have been reported from the state `w`. -/
def emit (pid : Nat) (fileName : CStr) (w : Walk) (ps : List CStr) : Walk :=
  ⟨w.stdout ++ ps.map (Line.found pid fileName), if ps = [] then w.fileFound else 1⟩

/-! ## Example trees -/

/-- The tree `root/{a.txt, sub/A.TXT}` of the scenarios, reached by the relative path `root`. -/
def scenarioFs : FileSystem := fun p =>
  if p = "root".toList then
    some (.directory (some [".".toList, "..".toList, "a.txt".toList, "sub".toList]))
  else if p = "root/a.txt".toList then some .regular
  else if p = "root/sub".toList then
    some (.directory (some [".".toList, "..".toList, "A.TXT".toList]))
  else if p = "root/sub/A.TXT".toList then some .regular
  else none

/-- A directory path of 1020 bytes. -/
def longDir : CStr := List.replicate 1020 (Char.ofNat 97)

/-- A tree whose directory `longDir` lists the one name `bcdef`, which is no file; the
first 1023 bytes of the joined path name a regular file. -/
def longFs : FileSystem := fun p =>
  if p = longDir then some (.directory (some ["bcdef".toList]))
  else if p = longDir ++ "/bc".toList then some .regular
  else none

/-- The file system `fs` with the node at `path` replaced. -/
def setNode (fs : FileSystem) (path : CStr) (node : Node) : FileSystem := fun p =>
  if p = path then some node else fs p

/-- The tree `root/{a.txt, locked/, ghost, z/a.txt}`: the directory `locked` cannot be
opened and `stat` fails for `ghost`. -/
def lockedFs : FileSystem := fun p =>
  if p = "root".toList then
    some (.directory (some ["a.txt".toList, "locked".toList, "ghost".toList, "z".toList]))
  else if p = "root/a.txt".toList then some .regular
  else if p = "root/locked".toList then some (.directory none)
  else if p = "root/z".toList then some (.directory (some ["a.txt".toList]))
  else if p = "root/z/a.txt".toList then some .regular
  else none

/-- A search root of 1017 bytes. -/
def loopRoot : CStr := List.replicate 1017 (Char.ofNat 97)

/-- The tree `loopRoot/{a.txt, bcdef/x}`. The path of the directory `bcdef` has 1023 bytes,
so for its entry `x` the path buffer holds the path of `bcdef` again. -/
def loopFs : FileSystem := fun p =>
  if p = loopRoot then some (.directory (some ["a.txt".toList, "bcdef".toList]))
  else if p = loopRoot ++ "/a.txt".toList then some .regular
  else if p = loopRoot ++ "/bcdef".toList then some (.directory (some ["x".toList]))
  else if p = loopRoot ++ "/bcdef/x".toList then some .regular
  else none

/-- The walk state `a` with the lines `pre` put in front of its output. -/
def shift (pre : List Line) (a : Walk) : Walk := ⟨pre ++ a.stdout, a.fileFound⟩

end MyFind

namespace MyFind

/-! ## Bytes and strings -/

theorem toNat_ofNat_of_lt (n : Nat) (h : n < 55296) : (Char.ofNat n).toNat = n := by
  unfold Char.ofNat
  rw [dif_pos (Or.inl h)]
  rfl

theorem toNat_inj {a b : Char} (h : a.toNat = b.toNat) : a = b := by
  rw [← Char.ofNat_toNat a, ← Char.ofNat_toNat b, h]

theorem tolower_eq_iff (a b : Char) : tolower a = tolower b ↔ FoldEq a b := by
  unfold tolower FoldEq IsUpperAscii
  by_cases ha : 65 ≤ a.toNat ∧ a.toNat ≤ 90 <;> by_cases hb : 65 ≤ b.toNat ∧ b.toNat ≤ 90
  · rw [if_pos ha, if_pos hb]
    constructor
    · intro h
      have h1 := congrArg Char.toNat h
      rw [toNat_ofNat_of_lt _ (by omega), toNat_ofNat_of_lt _ (by omega)] at h1
      exact Or.inl (toNat_inj (by omega))
    · rintro (h | ⟨_, h⟩ | ⟨_, h⟩)
      · rw [h]
      · omega
      · omega
  · rw [if_pos ha, if_neg hb]
    constructor
    · intro h
      have h1 := congrArg Char.toNat h
      rw [toNat_ofNat_of_lt _ (by omega)] at h1
      exact Or.inr (Or.inl ⟨ha, h1.symm⟩)
    · rintro (h | ⟨_, h⟩ | ⟨h, _⟩)
      · exact absurd (h ▸ ha) hb
      · rw [← h, Char.ofNat_toNat]
      · exact absurd h hb
  · rw [if_neg ha, if_pos hb]
    constructor
    · intro h
      have h1 := congrArg Char.toNat h
      rw [toNat_ofNat_of_lt _ (by omega)] at h1
      exact Or.inr (Or.inr ⟨hb, h1⟩)
    · rintro (h | ⟨h, _⟩ | ⟨_, h⟩)
      · exact absurd (h ▸ hb) ha
      · exact absurd h ha
      · rw [← h, Char.ofNat_toNat]
  · rw [if_neg ha, if_neg hb]
    constructor
    · intro h
      exact Or.inl h
    · rintro (h | ⟨h, _⟩ | ⟨h, _⟩)
      · exact h
      · exact absurd h ha
      · exact absurd h hb

theorem strcmp_eq_zero_iff (s t : CStr) : strcmp s t = 0 ↔ s = t := by
  induction s generalizing t with
  | nil => cases t <;> simp [strcmp]
  | cons a as ih =>
    cases t with
    | nil => simp [strcmp]
    | cons b bs =>
      unfold strcmp
      by_cases hab : a = b
      · rw [if_pos hab, ih bs]
        simp [hab]
      · rw [if_neg hab]
        constructor
        · intro h
          split at h <;> omega
        · intro h
          exact absurd (List.cons.inj h).1 hab

theorem strcasecmp_eq_zero_iff (s t : CStr) :
    strcasecmp s t = 0 ↔ List.Forall₂ FoldEq s t := by
  induction s generalizing t with
  | nil => cases t <;> simp [strcasecmp]
  | cons a as ih =>
    cases t with
    | nil => simp [strcasecmp]
    | cons b bs =>
      unfold strcasecmp
      rw [List.forall₂_cons, ← tolower_eq_iff]
      by_cases hab : tolower a = tolower b
      · rw [if_pos hab, ih bs]
        simp [hab]
      · rw [if_neg hab]
        constructor
        · intro h
          split at h <;> omega
        · intro h
          exact absurd h.1 hab

theorem strrchr_none_iff (s : CStr) (c : Char) : strrchr s c = none ↔ c ∉ s := by
  induction s with
  | nil => simp [strrchr]
  | cons a as ih =>
    unfold strrchr
    cases h : strrchr as c with
    | some t =>
      have : c ∈ as := by
        by_contra hc
        rw [ih.mpr hc] at h
        cases h
      simp [this]
    | none =>
      have hc := ih.mp h
      by_cases hac : a = c
      · simp [hac]
      · have : ¬ c = a := fun h => hac h.symm
        simp [hac, hc, this]

theorem strrchr_append (pre B : CStr) (c : Char) (h : c ∉ B) :
    strrchr (pre ++ c :: B) c = some (c :: B) := by
  induction pre with
  | nil =>
    show strrchr (c :: B) c = some (c :: B)
    unfold strrchr
    rw [(strrchr_none_iff B c).mpr h]
    simp
  | cons a as ih =>
    show strrchr (a :: (as ++ c :: B)) c = some (c :: B)
    unfold strrchr
    rw [ih]

theorem exists_baseName (s : CStr) (c : Char) (h : c ∈ s) :
    ∃ pre B, s = pre ++ c :: B ∧ c ∉ B := by
  induction s with
  | nil => cases h
  | cons a as ih =>
    by_cases hc : c ∈ as
    · obtain ⟨pre, B, h1, h2⟩ := ih hc
      exact ⟨a :: pre, B, by rw [h1]; rfl, h2⟩
    · have hac : c = a := by
        rcases List.mem_cons.mp h with h | h
        · exact h
        · exact absurd h hc
      exact ⟨[], as, by rw [hac]; rfl, hc⟩

theorem strrchr_of_isBaseName {path B : CStr} (h : IsBaseName path B) :
    strrchr path slash = some (slash :: B) := by
  obtain ⟨pre, h1, h2⟩ := h
  rw [h1]
  exact strrchr_append pre B slash h2

theorem isBaseName_unique {path B B' : CStr} (h : IsBaseName path B) (h' : IsBaseName path B') :
    B = B' := by
  have h1 := strrchr_of_isBaseName h
  rw [strrchr_of_isBaseName h'] at h1
  exact ((List.cons.inj (Option.some.inj h1)).2).symm

/-! ## The matcher -/

theorem nameTest_iff (caseInsensitive : Int) (N B : CStr) :
    ((caseInsensitive ≠ 0 ∧ strcasecmp N B = 0) ∨ (caseInsensitive = 0 ∧ strcmp N B = 0))
      ↔ NameEq caseInsensitive N B := by
  unfold NameEq
  by_cases h : caseInsensitive = 0
  · rw [if_pos h, ← strcmp_eq_zero_iff]
    simp [h]
  · rw [if_neg h, ← strcasecmp_eq_zero_iff]
    simp [h]

theorem hitsFile_of_stat_ne (fs : FileSystem) (ci : Int) (N p : CStr)
    (h : stat fs p ≠ some FileType.regular) : hitsFile fs ci N p = some [] := by
  unfold hitsFile
  cases hs : stat fs p with
  | none => rfl
  | some m =>
    have hm : m ≠ FileType.regular := fun e => h (by rw [hs, e])
    simp [S_ISREG, hm]

theorem hitsFile_of_isMatch (fs : FileSystem) (ci : Int) (N p : CStr)
    (h : IsMatch fs ci N p) : hitsFile fs ci N p = some [p] := by
  obtain ⟨hs, B, hB, hN⟩ := h
  unfold hitsFile
  rw [hs]
  simp only [S_ISREG, decide_True, if_true]
  rw [strrchr_of_isBaseName hB]
  simp only [List.drop_succ_cons, List.drop_zero]
  rw [if_pos ((nameTest_iff ci N B).mpr hN)]

theorem hitsFile_of_not_isMatch (fs : FileSystem) (ci : Int) (N p : CStr)
    (hp : slash ∈ p) (h : ¬ IsMatch fs ci N p) : hitsFile fs ci N p = some [] := by
  by_cases hs : stat fs p = some FileType.regular
  · obtain ⟨pre, B, h1, h2⟩ := exists_baseName p slash hp
    have hB : IsBaseName p B := ⟨pre, h1, h2⟩
    unfold hitsFile
    rw [hs]
    simp only [S_ISREG, decide_True, if_true]
    rw [strrchr_of_isBaseName hB]
    simp only [List.drop_succ_cons, List.drop_zero]
    rw [if_neg]
    intro hN
    exact h ⟨hs, B, hB, (nameTest_iff ci N B).mp hN⟩
  · exact hitsFile_of_stat_ne fs ci N p hs

theorem emit_nil (pid : Nat) (N : CStr) (w : Walk) : emit pid N w [] = w := by
  simp [emit]

theorem emit_append (pid : Nat) (N : CStr) (w : Walk) (a b : List CStr) :
    emit pid N (emit pid N w a) b = emit pid N w (a ++ b) := by
  unfold emit
  cases a <;> cases b <;> simp

theorem searchFile_eq (fs : FileSystem) (pid : Nat) (p N : CStr) (ci : Int) (w : Walk) :
    searchFile fs pid p N ci w = (hitsFile fs ci N p).map (emit pid N w) := by
  unfold searchFile hitsFile
  cases stat fs p with
  | none => simp [emit_nil]
  | some m =>
    by_cases hm : S_ISREG m = true
    · simp only [hm, if_true]
      cases strrchr p slash with
      | none => rfl
      | some t =>
        simp only []
        split_ifs
        · simp [emit]
        · simp [emit_nil]
    · simp [hm, emit_nil]

/-! ## The walk -/

theorem readdirLoop_eq (fs : FileSystem) (pid : Nat) (N : CStr) (recursive ci : Int)
    (recurse : CStr → Walk → Option Walk) (hits : CStr → Option (List CStr))
    (hh : ∀ p w, recurse p w = (hits p).map (emit pid N w)) (d : CStr) (es : List CStr)
    (w : Walk) :
    readdirLoop fs pid N recursive ci recurse d es w
      = (hitsLoop fs N recursive ci hits d es).map (emit pid N w) := by
  induction es generalizing w with
  | nil => simp [readdirLoop, hitsLoop, emit_nil]
  | cons e rest ih =>
    unfold readdirLoop hitsLoop
    by_cases hdot : e = dot ∨ e = dotdot
    · rw [if_pos hdot, if_pos hdot]
      exact ih w
    · rw [if_neg hdot, if_neg hdot]
      cases stat fs (fullPathOf d e) with
      | none => exact ih w
      | some m =>
        simp only []
        have key : ∀ x : Option (List CStr),
            (match x.map (emit pid N w) with
              | none => none
              | some w1 => readdirLoop fs pid N recursive ci recurse d rest w1)
            = Option.map (emit pid N w)
                (match x with
                  | none => none
                  | some a =>
                    match hitsLoop fs N recursive ci hits d rest with
                    | none => none
                    | some b => some (a ++ b)) := by
          intro x
          cases x with
          | none => rfl
          | some a =>
            simp only [Option.map_some']
            rw [ih]
            cases hitsLoop fs N recursive ci hits d rest with
            | none => rfl
            | some b => simp [emit_append]
        by_cases hdir : S_ISDIR m = true ∧ recursive ≠ 0
        · rw [if_pos hdir, if_pos hdir, hh]
          exact key _
        · rw [if_neg hdir, if_neg hdir, searchFile_eq]
          exact key _

theorem searchDirectory_eq (fs : FileSystem) (pid : Nat) (N : CStr) (recursive ci : Int)
    (fuel : Nat) (d : CStr) (w : Walk) :
    searchDirectory fs pid N recursive ci fuel d w
      = (hitsDir fs N recursive ci fuel d).map (emit pid N w) := by
  induction fuel generalizing d w with
  | zero => rfl
  | succ fuel ih =>
    unfold searchDirectory hitsDir
    cases opendir fs d with
    | none => simp [emit_nil]
    | some es => exact readdirLoop_eq fs pid N recursive ci _ _ (fun p w => ih p w) d es w

theorem hitsLoop_cons (fs : FileSystem) (N : CStr) (recursive ci : Int)
    (recurse : CStr → Option (List CStr)) (d e : CStr) (rest : List CStr) :
    hitsLoop fs N recursive ci recurse d (e :: rest)
      = match hitsEntry fs N recursive ci recurse d e with
        | none => none
        | some a =>
          match hitsLoop fs N recursive ci recurse d rest with
          | none => none
          | some b => some (a ++ b) := by
  rw [hitsLoop]
  unfold hitsEntry
  by_cases hdot : e = dot ∨ e = dotdot
  · rw [if_pos hdot, if_pos hdot]
    cases hitsLoop fs N recursive ci recurse d rest <;> rfl
  · rw [if_neg hdot, if_neg hdot]
    cases stat fs (fullPathOf d e) with
    | none => cases hitsLoop fs N recursive ci recurse d rest <;> rfl
    | some m => rfl

theorem fullPathOf_of_fits (d e : CStr) (h : (d ++ slash :: e).length < MAX_PATH_LEN) :
    fullPathOf d e = d ++ slash :: e := by
  unfold fullPathOf snprintf
  unfold MAX_PATH_LEN at *
  rw [if_neg (by decide)]
  exact List.take_of_length_le (by omega)

theorem slash_mem_join (d e : CStr) : slash ∈ d ++ slash :: e := by
  simp

theorem not_isMatch_of_stat {fs : FileSystem} {ci : Int} {N p : CStr}
    (h : stat fs p ≠ some FileType.regular) : ¬ IsMatch fs ci N p :=
  fun hm => h hm.1

/-- The paths reported for one entry whose full path fits the buffer. -/
theorem hitsEntry_spec (fs : FileSystem) (N : CStr) (recursive ci : Int)
    (recurse : CStr → Option (List CStr)) (R : CStr → CStr → Prop) (d e : CStr)
    (hfit : e ≠ dot → e ≠ dotdot → (d ++ slash :: e).length < MAX_PATH_LEN)
    (hrec : recursive ≠ 0 → e ≠ dot → e ≠ dotdot →
      stat fs (d ++ slash :: e) = some FileType.directory →
      ∃ ps, recurse (d ++ slash :: e) = some ps ∧ ∀ p, p ∈ ps ↔ R (d ++ slash :: e) p) :
    ∃ ps, hitsEntry fs N recursive ci recurse d e = some ps ∧
      ∀ p, p ∈ ps ↔ (e ≠ dot ∧ e ≠ dotdot ∧
        ((recursive ≠ 0 ∧ stat fs (d ++ slash :: e) = some FileType.directory
            ∧ R (d ++ slash :: e) p)
          ∨ (p = d ++ slash :: e ∧ IsMatch fs ci N p))) := by
  unfold hitsEntry
  by_cases hdot : e = dot ∨ e = dotdot
  · rw [if_pos hdot]
    refine ⟨[], rfl, fun p => ?_⟩
    constructor
    · intro h
      cases h
    · rintro ⟨h1, h2, _⟩
      rcases hdot with h | h
      · exact absurd h h1
      · exact absurd h h2
  · rw [if_neg hdot]
    have h1 : e ≠ dot := fun h => hdot (Or.inl h)
    have h2 : e ≠ dotdot := fun h => hdot (Or.inr h)
    rw [fullPathOf_of_fits d e (hfit h1 h2)]
    cases hs : stat fs (d ++ slash :: e) with
    | none =>
      refine ⟨[], rfl, fun p => ?_⟩
      constructor
      · intro h
        cases h
      · rintro ⟨_, _, ⟨_, h, _⟩ | ⟨hp, hm⟩⟩
        · cases h
        · rw [hp] at hm
          exact absurd hm (not_isMatch_of_stat (by rw [hs]; simp))
    | some m =>
      simp only []
      by_cases hdir : S_ISDIR m = true ∧ recursive ≠ 0
      · rw [if_pos hdir]
        have hm : m = FileType.directory := by simpa [S_ISDIR] using hdir.1
        subst hm
        obtain ⟨ps, hps, hR⟩ := hrec hdir.2 h1 h2 hs
        refine ⟨ps, hps, fun p => ?_⟩
        rw [hR p]
        constructor
        · intro h
          exact ⟨h1, h2, Or.inl ⟨hdir.2, rfl, h⟩⟩
        · rintro ⟨_, _, ⟨_, _, h⟩ | ⟨hp, hm⟩⟩
          · exact h
          · rw [hp] at hm
            exact absurd hm (not_isMatch_of_stat (by rw [hs]; simp))
      · rw [if_neg hdir]
        by_cases hm : IsMatch fs ci N (d ++ slash :: e)
        · rw [hitsFile_of_isMatch fs ci N _ hm]
          refine ⟨_, rfl, fun p => ?_⟩
          constructor
          · intro h
            have hp : p = d ++ slash :: e := by simpa using h
            exact ⟨h1, h2, Or.inr ⟨hp, hp ▸ hm⟩⟩
          · rintro ⟨_, _, ⟨hr, h, _⟩ | ⟨hp, _⟩⟩
            · exfalso
              apply hdir
              have : m = FileType.directory := Option.some.inj h
              exact ⟨by simp [S_ISDIR, this], hr⟩
            · simp [hp]
        · rw [hitsFile_of_not_isMatch fs ci N _ (slash_mem_join d e) hm]
          refine ⟨_, rfl, fun p => ?_⟩
          constructor
          · intro h
            cases h
          · rintro ⟨_, _, ⟨hr, h, _⟩ | ⟨hp, hm2⟩⟩
            · exfalso
              apply hdir
              have : m = FileType.directory := Option.some.inj h
              exact ⟨by simp [S_ISDIR, this], hr⟩
            · rw [hp] at hm2
              exact absurd hm2 hm

/-- The paths reported by the loop over entries whose full paths fit the buffer. -/
theorem hitsLoop_spec (fs : FileSystem) (N : CStr) (recursive ci : Int)
    (recurse : CStr → Option (List CStr)) (R : CStr → CStr → Prop) (d : CStr) (es : List CStr)
    (hfit : ∀ e ∈ es, e ≠ dot → e ≠ dotdot → (d ++ slash :: e).length < MAX_PATH_LEN)
    (hrec : recursive ≠ 0 → ∀ e ∈ es, e ≠ dot → e ≠ dotdot →
      stat fs (d ++ slash :: e) = some FileType.directory →
      ∃ ps, recurse (d ++ slash :: e) = some ps ∧ ∀ p, p ∈ ps ↔ R (d ++ slash :: e) p) :
    ∃ ps, hitsLoop fs N recursive ci recurse d es = some ps ∧
      ∀ p, p ∈ ps ↔ ∃ e, e ∈ es ∧ e ≠ dot ∧ e ≠ dotdot ∧
        ((recursive ≠ 0 ∧ stat fs (d ++ slash :: e) = some FileType.directory
            ∧ R (d ++ slash :: e) p)
          ∨ (p = d ++ slash :: e ∧ IsMatch fs ci N p)) := by
  induction es with
  | nil =>
    refine ⟨[], rfl, fun p => ?_⟩
    simp
  | cons e rest ih =>
    obtain ⟨a, ha, hA⟩ := hitsEntry_spec fs N recursive ci recurse R d e
      (hfit e (List.mem_cons_self e rest))
      (fun hr => hrec hr e (List.mem_cons_self e rest))
    obtain ⟨b, hb, hB⟩ := ih (fun x hx => hfit x (List.mem_cons_of_mem e hx))
      (fun hr x hx => hrec hr x (List.mem_cons_of_mem e hx))
    refine ⟨a ++ b, ?_, fun p => ?_⟩
    · rw [hitsLoop_cons, ha, hb]
    · rw [List.mem_append, hA p, hB p]
      constructor
      · rintro (h | ⟨x, hx, h⟩)
        · exact ⟨e, List.mem_cons_self e rest, h⟩
        · exact ⟨x, List.mem_cons_of_mem e hx, h⟩
      · rintro ⟨x, hx, h⟩
        rcases List.mem_cons.mp hx with hx | hx
        · exact Or.inl (hx ▸ h)
        · exact Or.inr ⟨x, hx, h⟩

theorem length_join (d e : CStr) : (d ++ slash :: e).length = d.length + 1 + e.length := by
  simp
  omega

theorem not_under_of_opendir_none {fs : FileSystem} {d p : CStr} (h : opendir fs d = none) :
    ¬ Under fs d p := by
  intro hu
  cases hu with
  | here he =>
    obtain ⟨es, e, hop, _⟩ := he
    rw [h] at hop
    cases hop
  | deeper he _ _ =>
    obtain ⟨es, e, hop, _⟩ := he
    rw [h] at hop
    cases hop

/-- With every path under `d` fitting the buffer, the recursive walk returns, and it
reports exactly the matches under `d`. -/
theorem hitsDir_recursive (fs : FileSystem) (N : CStr) (recursive ci : Int)
    (hr : recursive ≠ 0) (fuel : Nat) :
    ∀ d : CStr, (∀ p, Under fs d p → p.length < MAX_PATH_LEN) → 0 < fuel →
      MAX_PATH_LEN + 1 ≤ fuel + d.length →
      ∃ ps, hitsDir fs N recursive ci fuel d = some ps ∧
        ∀ p, p ∈ ps ↔ (Under fs d p ∧ IsMatch fs ci N p) := by
  induction fuel with
  | zero =>
    intro d _ h0 _
    exact absurd h0 (by decide)
  | succ fuel ih =>
    intro d hfit _ hlen
    unfold hitsDir
    cases hop : opendir fs d with
    | none =>
      refine ⟨[], rfl, fun p => ?_⟩
      constructor
      · intro h
        cases h
      · rintro ⟨h, _⟩
        exact absurd h (not_under_of_opendir_none hop)
    | some es =>
      simp only []
      have hentry : ∀ e, e ∈ es → e ≠ dot → e ≠ dotdot → Entry fs d (d ++ slash :: e) :=
        fun e he h1 h2 => ⟨es, e, hop, he, h1, h2, rfl⟩
      obtain ⟨ps, hps, hP⟩ := hitsLoop_spec fs N recursive ci
        (hitsDir fs N recursive ci fuel) (fun x p => Under fs x p ∧ IsMatch fs ci N p) d es
        (fun e he h1 h2 => hfit _ (Under.here (hentry e he h1 h2)))
        (fun _ e he h1 h2 hs => by
          have hl := hfit _ (Under.here (hentry e he h1 h2))
          rw [length_join] at hl
          apply ih (d ++ slash :: e)
          · intro p hp
            exact hfit p (Under.deeper (hentry e he h1 h2) hs hp)
          · unfold MAX_PATH_LEN at *
            omega
          · rw [length_join]
            omega)
      refine ⟨ps, hps, fun p => ?_⟩
      rw [hP p]
      constructor
      · rintro ⟨e, he, h1, h2, ⟨_, hs, hu, hm⟩ | ⟨hp, hm⟩⟩
        · exact ⟨Under.deeper (hentry e he h1 h2) hs hu, hm⟩
        · exact ⟨Under.here (hp ▸ hentry e he h1 h2), hm⟩
      · rintro ⟨hu, hm⟩
        cases hu with
        | here he =>
          obtain ⟨es2, e, hop2, he, h1, h2, hp⟩ := he
          rw [hop] at hop2
          cases hop2
          exact ⟨e, he, h1, h2, Or.inr ⟨hp, hm⟩⟩
        | deeper he hs hu =>
          obtain ⟨es2, e, hop2, he, h1, h2, hx⟩ := he
          rw [hop] at hop2
          cases hop2
          subst hx
          exact ⟨e, he, h1, h2, Or.inl ⟨hr, hs, hu, hm⟩⟩

/-- With every immediate entry of `d` fitting the buffer, the walk without recursion
returns, and it reports exactly the matches among the immediate entries of `d`. -/
theorem hitsDir_flat (fs : FileSystem) (N : CStr) (ci : Int) (fuel : Nat) (d : CStr)
    (hfit : ∀ p, Entry fs d p → p.length < MAX_PATH_LEN) (hfuel : 0 < fuel) :
    ∃ ps, hitsDir fs N 0 ci fuel d = some ps ∧
      ∀ p, p ∈ ps ↔ (Entry fs d p ∧ IsMatch fs ci N p) := by
  cases fuel with
  | zero => exact absurd hfuel (by decide)
  | succ fuel =>
    unfold hitsDir
    cases hop : opendir fs d with
    | none =>
      refine ⟨[], rfl, fun p => ?_⟩
      constructor
      · intro h
        cases h
      · rintro ⟨⟨es, e, hop2, _⟩, _⟩
        rw [hop] at hop2
        cases hop2
    | some es =>
      simp only []
      have hentry : ∀ e, e ∈ es → e ≠ dot → e ≠ dotdot → Entry fs d (d ++ slash :: e) :=
        fun e he h1 h2 => ⟨es, e, hop, he, h1, h2, rfl⟩
      obtain ⟨ps, hps, hP⟩ := hitsLoop_spec fs N 0 ci
        (hitsDir fs N 0 ci fuel) (fun _ _ => False) d es
        (fun e he h1 h2 => hfit _ (hentry e he h1 h2))
        (fun h0 => absurd rfl h0)
      refine ⟨ps, hps, fun p => ?_⟩
      rw [hP p]
      constructor
      · rintro ⟨e, he, h1, h2, ⟨h0, _⟩ | ⟨hp, hm⟩⟩
        · exact absurd rfl h0
        · exact ⟨hp ▸ hentry e he h1 h2, hm⟩
      · rintro ⟨⟨es2, e, hop2, he, h1, h2, hp⟩, hm⟩
        rw [hop] at hop2
        cases hop2
        exact ⟨e, he, h1, h2, Or.inr ⟨hp, hm⟩⟩

theorem mem_emit_stdout (pid : Nat) (N : CStr) (ps : List CStr) (line : Line) :
    line ∈ (emit pid N ⟨[], 0⟩ ps).stdout ↔ ∃ p, line = Line.found pid N p ∧ p ∈ ps := by
  unfold emit
  simp only [List.nil_append, List.mem_map]
  constructor
  · rintro ⟨p, hp, h⟩
    exact ⟨p, h.symm, hp⟩
  · rintro ⟨p, h, hp⟩
    exact ⟨p, hp, h.symm⟩

/-! ## The scenario tree -/

theorem entry_of_under {fs : FileSystem} {d p : CStr} (h : Under fs d p) :
    ∃ x, Entry fs x p := by
  induction h with
  | here he => exact ⟨_, he⟩
  | deeper _ _ _ ih => exact ih

theorem scenarioFs_entry_fits (x p : CStr) (h : Entry scenarioFs x p) :
    p.length < MAX_PATH_LEN := by
  obtain ⟨es, e, hop, he, _, _, hp⟩ := h
  subst hp
  unfold opendir scenarioFs at hop
  split_ifs at hop with h1 h2 h3 h4
  · subst h1
    simp only [Option.some.injEq] at hop
    subst hop
    simp only [List.mem_cons, List.mem_singleton, List.not_mem_nil, or_false] at he
    rcases he with rfl | rfl | rfl | rfl <;> decide
  · subst h3
    simp only [Option.some.injEq] at hop
    subst hop
    simp only [List.mem_cons, List.mem_singleton, List.not_mem_nil, or_false] at he
    rcases he with rfl | rfl | rfl <;> decide

theorem scenarioFs_under_fits (d p : CStr) (h : Under scenarioFs d p) :
    p.length < MAX_PATH_LEN := by
  obtain ⟨x, hx⟩ := entry_of_under h
  exact scenarioFs_entry_fits x p hx

/-! ## The claims -/

/-- C1. In recursive mode, on a tree in which every full path built during the walk fits the
path buffer, `searchDirectory` returns (any fuel above `MAX_PATH_LEN` is enough) and prints a
match record for a path if and only if that path is an entry at some depth under the root
that `stat` sees as a regular file and whose base name equals the target name under the
active case rule. `Under` follows the listings that `opendir` yields and `IsMatch` asks
`stat`, so on a tree whose directories can all be listed and whose entries can all be read
these are all the files of the tree. -/
theorem searchDirectory_recursive_sound_complete (fs : FileSystem) (pid : Nat) (N : CStr)
    (recursive caseInsensitive : Int) (root : CStr) (fuel : Nat)
    (hrec : recursive ≠ 0)
    (hfit : ∀ p, Under fs root p → p.length < MAX_PATH_LEN)
    (hfuel : MAX_PATH_LEN < fuel) :
    ∃ w, searchDirectory fs pid N recursive caseInsensitive fuel root ⟨[], 0⟩ = some w ∧
      ∀ line, line ∈ w.stdout ↔
        ∃ p, line = Line.found pid N p ∧ Under fs root p ∧ IsMatch fs caseInsensitive N p := by
  obtain ⟨ps, hps, hP⟩ := hitsDir_recursive fs N recursive caseInsensitive hrec fuel root hfit
    (by omega) (by omega)
  refine ⟨emit pid N ⟨[], 0⟩ ps, ?_, fun line => ?_⟩
  · rw [searchDirectory_eq, hps]
    rfl
  · rw [mem_emit_stdout]
    constructor
    · rintro ⟨p, h, hp⟩
      exact ⟨p, h, (hP p).mp hp⟩
    · rintro ⟨p, h, hp⟩
      exact ⟨p, h, (hP p).mpr hp⟩

/-- C1 at the scenario tree `root/{a.txt, sub/A.TXT}`: target `a.txt`, recursive and
case-insensitive. The walk prints `root/a.txt` and `root/sub/A.TXT`. -/
theorem searchDirectory_recursive_sound_complete_witness :
    searchDirectory scenarioFs 7 "a.txt".toList 1 1 3 "root".toList ⟨[], 0⟩
        = some ⟨[Line.found 7 "a.txt".toList "root/a.txt".toList,
                 Line.found 7 "a.txt".toList "root/sub/A.TXT".toList], 1⟩ ∧
      ∃ w, searchDirectory scenarioFs 7 "a.txt".toList 1 1 1025 "root".toList ⟨[], 0⟩ = some w ∧
        ∀ line, line ∈ w.stdout ↔
          ∃ p, line = Line.found 7 "a.txt".toList p ∧ Under scenarioFs "root".toList p ∧
            IsMatch scenarioFs 1 "a.txt".toList p :=
  ⟨by decide,
   searchDirectory_recursive_sound_complete scenarioFs 7 "a.txt".toList 1 1 "root".toList 1025
    (by decide) (scenarioFs_under_fits "root".toList) (by decide)⟩

/-- C2. Without recursion, on a directory whose immediate entries all fit the path buffer,
`searchDirectory` returns (any positive fuel) and prints a match record for a path if and
only if that path is an immediate entry of the root that `stat` sees as a regular file and
whose base name equals the target name under the active case rule. So nothing inside a
subdirectory is reported through that subdirectory, and no directory is reported. -/
theorem searchDirectory_nonrecursive_depth_one (fs : FileSystem) (pid : Nat) (N : CStr)
    (caseInsensitive : Int) (root : CStr) (fuel : Nat)
    (hfit : ∀ p, Entry fs root p → p.length < MAX_PATH_LEN)
    (hfuel : 0 < fuel) :
    ∃ w, searchDirectory fs pid N 0 caseInsensitive fuel root ⟨[], 0⟩ = some w ∧
      (∀ line, line ∈ w.stdout ↔
        ∃ p, line = Line.found pid N p ∧ Entry fs root p ∧ IsMatch fs caseInsensitive N p) ∧
      (∀ p, Line.found pid N p ∈ w.stdout → stat fs p ≠ some FileType.directory) := by
  obtain ⟨ps, hps, hP⟩ := hitsDir_flat fs N caseInsensitive fuel root hfit hfuel
  have hiff : ∀ line, line ∈ (emit pid N ⟨[], 0⟩ ps).stdout ↔
      ∃ p, line = Line.found pid N p ∧ Entry fs root p ∧ IsMatch fs caseInsensitive N p := by
    intro line
    rw [mem_emit_stdout]
    constructor
    · rintro ⟨p, h, hp⟩
      exact ⟨p, h, (hP p).mp hp⟩
    · rintro ⟨p, h, hp⟩
      exact ⟨p, h, (hP p).mpr hp⟩
  refine ⟨emit pid N ⟨[], 0⟩ ps, ?_, hiff, fun p hp => ?_⟩
  · rw [searchDirectory_eq, hps]
    rfl
  · obtain ⟨q, hq, _, hm⟩ := (hiff _).mp hp
    have hpq : p = q := by
      injection hq
    rw [hpq, hm.1]
    simp

/-- C2 at the scenario tree `root/{a.txt, sub/A.TXT}`: target `a.txt`, neither recursive
nor case-insensitive. The walk prints `root/a.txt` only. -/
theorem searchDirectory_nonrecursive_depth_one_witness :
    searchDirectory scenarioFs 7 "a.txt".toList 0 0 1 "root".toList ⟨[], 0⟩
        = some ⟨[Line.found 7 "a.txt".toList "root/a.txt".toList], 1⟩ ∧
      ∃ w, searchDirectory scenarioFs 7 "a.txt".toList 0 0 1 "root".toList ⟨[], 0⟩ = some w ∧
        (∀ line, line ∈ w.stdout ↔
          ∃ p, line = Line.found 7 "a.txt".toList p ∧ Entry scenarioFs "root".toList p ∧
            IsMatch scenarioFs 0 "a.txt".toList p) ∧
        (∀ p, Line.found 7 "a.txt".toList p ∈ w.stdout →
          stat scenarioFs p ≠ some FileType.directory) :=
  ⟨by decide,
   searchDirectory_nonrecursive_depth_one scenarioFs 7 "a.txt".toList 0 "root".toList 1
    (scenarioFs_entry_fits "root".toList) (by decide)⟩

/-- C3. For a full path that contains a separator, `searchFile` returns, and it reports a
match (appends the record and sets the found flag to 1) if and only if `stat` succeeds and
sees a regular file and the text after the last separator equals the target name, byte for
byte when `caseInsensitive` is zero and under ASCII case folding otherwise; in every other
case, and in particular when `stat` fails, it leaves output and flag as they were. -/
theorem searchFile_decision_rule (fs : FileSystem) (pid : Nat) (fullPath fileName : CStr)
    (caseInsensitive : Int) (w : Walk) (hslash : slash ∈ fullPath) :
    (searchFile fs pid fullPath fileName caseInsensitive w
        = some ⟨w.stdout ++ [Line.found pid fileName fullPath], 1⟩
      ↔ IsMatch fs caseInsensitive fileName fullPath) ∧
    (searchFile fs pid fullPath fileName caseInsensitive w = some w
      ↔ ¬ IsMatch fs caseInsensitive fileName fullPath) ∧
    (stat fs fullPath = none →
      searchFile fs pid fullPath fileName caseInsensitive w = some w) := by
  have hne : (⟨w.stdout ++ [Line.found pid fileName fullPath], 1⟩ : Walk) ≠ w := by
    intro h
    have h1 := congrArg (fun x => x.stdout.length) h
    simp at h1
  have hyes : IsMatch fs caseInsensitive fileName fullPath →
      searchFile fs pid fullPath fileName caseInsensitive w
        = some ⟨w.stdout ++ [Line.found pid fileName fullPath], 1⟩ := by
    intro hm
    rw [searchFile_eq, hitsFile_of_isMatch fs caseInsensitive fileName fullPath hm]
    simp [emit]
  have hno : ¬ IsMatch fs caseInsensitive fileName fullPath →
      searchFile fs pid fullPath fileName caseInsensitive w = some w := by
    intro hm
    rw [searchFile_eq, hitsFile_of_not_isMatch fs caseInsensitive fileName fullPath hslash hm]
    simp [emit_nil]
  refine ⟨⟨fun h => ?_, hyes⟩, ⟨fun h => ?_, hno⟩, fun hs => ?_⟩
  · by_contra hm
    rw [hno hm] at h
    exact hne (Option.some.inj h).symm
  · intro hm
    rw [hyes hm] at h
    exact hne (Option.some.inj h)
  · exact hno (not_isMatch_of_stat (by rw [hs]; simp))

/-- C3 at `root/sub/A.TXT` of the scenario tree with the target `a.txt`: reported under
case folding, not reported byte for byte. -/
theorem searchFile_decision_rule_witness :
    slash ∈ "root/sub/A.TXT".toList ∧
    searchFile scenarioFs 7 "root/sub/A.TXT".toList "a.txt".toList 1 ⟨[], 0⟩
      = some ⟨[Line.found 7 "a.txt".toList "root/sub/A.TXT".toList], 1⟩ ∧
    searchFile scenarioFs 7 "root/sub/A.TXT".toList "a.txt".toList 0 ⟨[], 0⟩ = some ⟨[], 0⟩ ∧
    IsMatch scenarioFs 1 "a.txt".toList "root/sub/A.TXT".toList ∧
    ¬ IsMatch scenarioFs 0 "a.txt".toList "root/sub/A.TXT".toList :=
  ⟨by decide, by decide, by decide,
   (searchFile_decision_rule scenarioFs 7 "root/sub/A.TXT".toList "a.txt".toList 1 ⟨[], 0⟩
      (by decide)).1.mp (by decide),
   (searchFile_decision_rule scenarioFs 7 "root/sub/A.TXT".toList "a.txt".toList 0 ⟨[], 0⟩
      (by decide)).2.1.mp (by decide)⟩

/-- C5. The code at a relative root: started as `myfind root a.txt` on the scenario tree,
the match record carries the path `root/a.txt`, which does not start with a separator. -/
theorem relative_root_prints_relative_path :
    main scenarioFs (fun _ => some 7) 1 [] ["root".toList, "a.txt".toList]
        = some ⟨0, [Line.found 7 "a.txt".toList "root/a.txt".toList, Line.terminated 7], []⟩ ∧
      "root/a.txt".toList.head? ≠ some slash := by
  decide

/-- C6. A root that is a regular file cannot be opened as a directory: whatever the flags
and the target name, `searchDirectory` returns at once, prints nothing and leaves the found
flag false, and the child exits with status 0. -/
theorem searchDirectory_root_regular_file (fs : FileSystem) (pid : Nat) (N root : CStr)
    (recursive caseInsensitive : Int) (fuel : Nat) (v : Vars)
    (hroot : fs root = some Node.regular) (hfuel : 0 < fuel)
    (hv : v.foundInCurrentProcess = 0) :
    searchDirectory fs pid N recursive caseInsensitive fuel root ⟨v.stdout, 0⟩
        = some ⟨v.stdout, 0⟩ ∧
      child fs fuel pid root N recursive caseInsensitive v = some (0, v.stdout) ∧
      WEXITSTATUS 0 = 0 := by
  have h : ∀ w, searchDirectory fs pid N recursive caseInsensitive fuel root w = some w := by
    intro w
    cases fuel with
    | zero => exact absurd hfuel (by decide)
    | succ fuel =>
      unfold searchDirectory opendir
      rw [hroot]
  refine ⟨h _, ?_, by decide⟩
  unfold child
  rw [h, hv]

/-- C6 at the root `root/a.txt` of the scenario tree with the target `a.txt`, which its
base name equals. -/
theorem searchDirectory_root_regular_file_witness :
    scenarioFs "root/a.txt".toList = some Node.regular ∧
      searchDirectory scenarioFs 7 "a.txt".toList 1 1 5 "root/a.txt".toList ⟨[], 0⟩
        = some ⟨[], 0⟩ ∧
      child scenarioFs 5 7 "root/a.txt".toList "a.txt".toList 1 1 ⟨0, 0, []⟩ = some (0, []) ∧
      WEXITSTATUS 0 = 0 :=
  ⟨by decide,
   searchDirectory_root_regular_file scenarioFs 7 "a.txt".toList "root/a.txt".toList 1 1 5
    ⟨0, 0, []⟩ (by decide) (by decide) rfl⟩

theorem fullPathOf_eq_take (d e : CStr) :
    fullPathOf d e = (d ++ slash :: e).take (MAX_PATH_LEN - 1) := by
  unfold fullPathOf snprintf
  rw [if_neg (by decide)]

set_option maxRecDepth 200000 in
/-- C10, the claim as stated fails. For the directory path `longDir` of 1020 bytes and
the entry name `bcdef` the path built is not the directory, a separator and the name: it
stops after `bc`, and the walk stats that path and hands it to the matcher, which reports
it for the target `bc`. -/
theorem fullPath_cut_at_buffer_size :
    fullPathOf longDir "bcdef".toList ≠ longDir ++ slash :: "bcdef".toList ∧
      fullPathOf longDir "bcdef".toList = longDir ++ "/bc".toList ∧
      searchDirectory longFs 7 "bc".toList 0 0 1 longDir ⟨[], 0⟩
        = some ⟨[Line.found 7 "bc".toList (longDir ++ "/bc".toList)], 1⟩ := by
  decide

/-- C10, amended. The path the loop of `searchDirectory` stats, recurses into and hands to
the matcher is the first `MAX_PATH_LEN - 1` bytes of the directory path, one separator and
the entry name: exactly that text when it is shorter than `MAX_PATH_LEN` bytes, and cut to
1023 bytes otherwise. -/
theorem fullPath_is_join_within_buffer (fs : FileSystem) (pid : Nat) (N : CStr)
    (recursive caseInsensitive : Int) (recurse : CStr → Walk → Option Walk)
    (d e : CStr) (rest : List CStr) (w : Walk) :
    (e ≠ dot → e ≠ dotdot →
      readdirLoop fs pid N recursive caseInsensitive recurse d (e :: rest) w =
        match stat fs ((d ++ slash :: e).take 1023) with
        | none => readdirLoop fs pid N recursive caseInsensitive recurse d rest w
        | some st_mode =>
          match (if S_ISDIR st_mode ∧ recursive ≠ 0
              then recurse ((d ++ slash :: e).take 1023) w
              else searchFile fs pid ((d ++ slash :: e).take 1023) N caseInsensitive w) with
          | none => none
          | some w1 => readdirLoop fs pid N recursive caseInsensitive recurse d rest w1) ∧
    ((d ++ slash :: e).length < MAX_PATH_LEN →
      (d ++ slash :: e).take 1023 = d ++ slash :: e) ∧
    (MAX_PATH_LEN ≤ (d ++ slash :: e).length →
      ((d ++ slash :: e).take 1023).length = 1023 ∧
      (d ++ slash :: e).take 1023 ≠ d ++ slash :: e) := by
  refine ⟨fun h1 h2 => ?_, fun h => ?_, fun h => ?_⟩
  · rw [readdirLoop, if_neg (by rintro (h | h); exact h1 h; exact h2 h), fullPathOf_eq_take]
    rfl
  · unfold MAX_PATH_LEN at h
    exact List.take_of_length_le (by omega)
  · unfold MAX_PATH_LEN at h
    have hl : ((d ++ slash :: e).take 1023).length = 1023 := by
      rw [List.length_take]
      omega
    refine ⟨hl, fun heq => ?_⟩
    rw [heq] at hl
    omega

set_option maxRecDepth 200000 in
/-- C10, amended, at the scenario tree (the path `root/a.txt` fits and is kept whole) and at
`longDir` with the entry `bcdef` (1026 bytes, cut to 1023). -/
theorem fullPath_is_join_within_buffer_witness :
    ("root".toList ++ slash :: "a.txt".toList).take 1023
        = "root".toList ++ slash :: "a.txt".toList ∧
      (((longDir ++ slash :: "bcdef".toList).take 1023).length = 1023 ∧
        (longDir ++ slash :: "bcdef".toList).take 1023 ≠ longDir ++ slash :: "bcdef".toList) ∧
      readdirLoop scenarioFs 7 "a.txt".toList 0 0 (fun _ _ => none) "root".toList
          ["a.txt".toList] ⟨[], 0⟩ =
        match stat scenarioFs (("root".toList ++ slash :: "a.txt".toList).take 1023) with
        | none => readdirLoop scenarioFs 7 "a.txt".toList 0 0 (fun _ _ => none) "root".toList
            [] ⟨[], 0⟩
        | some st_mode =>
          match (if S_ISDIR st_mode ∧ (0 : Int) ≠ 0
              then (fun _ _ => none) (("root".toList ++ slash :: "a.txt".toList).take 1023)
                (⟨[], 0⟩ : Walk)
              else searchFile scenarioFs 7 (("root".toList ++ slash :: "a.txt".toList).take 1023)
                "a.txt".toList 0 ⟨[], 0⟩) with
          | none => none
          | some w1 => readdirLoop scenarioFs 7 "a.txt".toList 0 0 (fun _ _ => none)
              "root".toList [] w1 :=
  ⟨(fullPath_is_join_within_buffer scenarioFs 7 "a.txt".toList 0 0 (fun _ _ => none)
      "root".toList "a.txt".toList [] ⟨[], 0⟩).2.1 (by decide),
   (fullPath_is_join_within_buffer scenarioFs 7 "a.txt".toList 0 0 (fun _ _ => none)
      longDir "bcdef".toList [] ⟨[], 0⟩).2.2 (by decide),
   (fullPath_is_join_within_buffer scenarioFs 7 "a.txt".toList 0 0 (fun _ _ => none)
      "root".toList "a.txt".toList [] ⟨[], 0⟩).1 (by decide) (by decide)⟩

/-! ## Skipping what cannot be read -/

theorem searchFile_congr {fs fs2 : FileSystem} (h : ∀ p, stat fs p = stat fs2 p) (pid : Nat)
    (p N : CStr) (ci : Int) (w : Walk) :
    searchFile fs pid p N ci w = searchFile fs2 pid p N ci w := by
  unfold searchFile
  rw [h]

theorem readdirLoop_congr {fs fs2 : FileSystem} (h : ∀ p, stat fs p = stat fs2 p) (pid : Nat)
    (N : CStr) (recursive ci : Int) (recurse recurse2 : CStr → Walk → Option Walk)
    (hr : ∀ p w, recurse p w = recurse2 p w) (d : CStr) (es : List CStr) (w : Walk) :
    readdirLoop fs pid N recursive ci recurse d es w
      = readdirLoop fs2 pid N recursive ci recurse2 d es w := by
  induction es generalizing w with
  | nil => rfl
  | cons e rest ih =>
    rw [readdirLoop, readdirLoop]
    by_cases hdot : e = dot ∨ e = dotdot
    · rw [if_pos hdot, if_pos hdot]
      exact ih w
    · rw [if_neg hdot, if_neg hdot, ← h]
      cases stat fs (fullPathOf d e) with
      | none => exact ih w
      | some m =>
        simp only []
        rw [hr, searchFile_congr h]
        generalize (if S_ISDIR m = true ∧ recursive ≠ 0 then recurse2 (fullPathOf d e) w
          else searchFile fs2 pid (fullPathOf d e) N ci w) = r
        cases r with
        | none => rfl
        | some w1 => exact ih w1

theorem readdirLoop_filter (fs : FileSystem) (pid : Nat) (N : CStr) (recursive ci : Int)
    (recurse : CStr → Walk → Option Walk) (d e : CStr)
    (hs : stat fs (fullPathOf d e) = none) (es : List CStr) (w : Walk) :
    readdirLoop fs pid N recursive ci recurse d (es.filter (fun x => decide (x ≠ e))) w
      = readdirLoop fs pid N recursive ci recurse d es w := by
  induction es generalizing w with
  | nil => rfl
  | cons x rest ih =>
    by_cases hx : x = e
    · subst hx
      rw [List.filter_cons_of_neg (by simp), ih w]
      conv => rhs; rw [readdirLoop]
      by_cases hdot : x = dot ∨ x = dotdot
      · rw [if_pos hdot]
      · rw [if_neg hdot, hs]
    · rw [List.filter_cons_of_pos (by simpa using hx)]
      rw [readdirLoop]
      conv => rhs; rw [readdirLoop]
      by_cases hdot : x = dot ∨ x = dotdot
      · rw [if_pos hdot, if_pos hdot]
        exact ih w
      · rw [if_neg hdot, if_neg hdot]
        cases stat fs (fullPathOf d x) with
        | none => exact ih w
        | some m =>
          simp only []
          generalize (if S_ISDIR m = true ∧ recursive ≠ 0 then recurse (fullPathOf d x) w
            else searchFile fs pid (fullPathOf d x) N ci w) = r
          cases r with
          | none => rfl
          | some w1 => exact ih w1

theorem stat_setNode_directory (fs : FileSystem) (D : CStr) (l l2 : Option (List CStr))
    (hD : fs D = some (Node.directory l)) (p : CStr) :
    stat fs p = stat (setNode fs D (Node.directory l2)) p := by
  unfold stat setNode
  by_cases hp : p = D
  · rw [if_pos hp, hp, hD]
    rfl
  · rw [if_neg hp]

theorem opendir_setNode_of_ne (fs : FileSystem) (D : CStr) (node : Node) (p : CStr)
    (hp : p ≠ D) : opendir (setNode fs D node) p = opendir fs p := by
  unfold opendir setNode
  rw [if_neg hp]

theorem opendir_setNode_self (fs : FileSystem) (D : CStr) (l : Option (List CStr)) :
    opendir (setNode fs D (Node.directory l)) D = l := by
  unfold opendir setNode
  rw [if_pos rfl]

theorem opendir_of_directory {fs : FileSystem} {D : CStr} {l : Option (List CStr)}
    (hD : fs D = some (Node.directory l)) : opendir fs D = l := by
  unfold opendir
  rw [hD]

/-- A directory that cannot be opened is walked like an empty one. -/
theorem searchDirectory_unopenable (fs : FileSystem) (pid : Nat) (N : CStr)
    (recursive ci : Int) (D : CStr) (hD : fs D = some (Node.directory none)) (fuel : Nat) :
    ∀ x w, searchDirectory fs pid N recursive ci fuel x w
      = searchDirectory (setNode fs D (Node.directory (some []))) pid N recursive ci fuel x w := by
  induction fuel with
  | zero =>
    intro x w
    rfl
  | succ fuel ih =>
    intro x w
    rw [searchDirectory, searchDirectory]
    by_cases hx : x = D
    · subst hx
      rw [opendir_setNode_self, opendir_of_directory hD]
      rfl
    · rw [opendir_setNode_of_ne fs D _ x hx]
      cases opendir fs x with
      | none => rfl
      | some es =>
        exact readdirLoop_congr (stat_setNode_directory fs D none (some []) hD) pid N
          recursive ci _ _ ih x es w

/-- An entry for which `stat` fails is walked like an entry that is not listed. -/
theorem searchDirectory_unreadable_entry (fs : FileSystem) (pid : Nat) (N : CStr)
    (recursive ci : Int) (d e : CStr) (es : List CStr)
    (hd : fs d = some (Node.directory (some es)))
    (hs : stat fs (fullPathOf d e) = none) (fuel : Nat) :
    ∀ x w, searchDirectory fs pid N recursive ci fuel x w
      = searchDirectory
          (setNode fs d (Node.directory (some (es.filter (fun x => decide (x ≠ e))))))
          pid N recursive ci fuel x w := by
  induction fuel with
  | zero =>
    intro x w
    rfl
  | succ fuel ih =>
    intro x w
    have hst := stat_setNode_directory fs d (some es)
      (some (es.filter (fun x => decide (x ≠ e)))) hd
    rw [searchDirectory, searchDirectory]
    by_cases hx : x = d
    · subst hx
      rw [opendir_setNode_self, opendir_of_directory hd]
      simp only []
      rw [← readdirLoop_congr hst pid N recursive ci _ _ ih x _ w]
      exact (readdirLoop_filter fs pid N recursive ci _ x e hs es w).symm
    · rw [opendir_setNode_of_ne fs d _ x hx]
      cases opendir fs x with
      | none => rfl
      | some es2 => exact readdirLoop_congr hst pid N recursive ci _ _ ih x es2 w

/-- C7. A subdirectory `D` that cannot be opened changes nothing compared with the same
tree in which `D` is an empty directory, and an entry `e` of a directory `d` for which
`stat` fails changes nothing compared with the same tree in which `d` does not list `e`:
from every root and every state, with every fuel, `searchDirectory` ends the same way, with
the same records in the same order and the same found flag. So the matches in the sibling
directories and in the later entries of the parent are reported all the same. -/
theorem unreadable_subtrees_skipped (fs : FileSystem) (pid : Nat) (N : CStr)
    (recursive caseInsensitive : Int) (fuel : Nat) (root : CStr) (w : Walk) :
    (∀ D, fs D = some (Node.directory none) →
      searchDirectory fs pid N recursive caseInsensitive fuel root w
        = searchDirectory (setNode fs D (Node.directory (some []))) pid N recursive
            caseInsensitive fuel root w) ∧
    (∀ d e es, fs d = some (Node.directory (some es)) → stat fs (fullPathOf d e) = none →
      searchDirectory fs pid N recursive caseInsensitive fuel root w
        = searchDirectory
            (setNode fs d (Node.directory (some (es.filter (fun x => decide (x ≠ e))))))
            pid N recursive caseInsensitive fuel root w) :=
  ⟨fun D hD => searchDirectory_unopenable fs pid N recursive caseInsensitive D hD fuel root w,
   fun d e es hd hs =>
    searchDirectory_unreadable_entry fs pid N recursive caseInsensitive d e es hd hs fuel
      root w⟩

/-- C7 at the tree `root/{a.txt, locked/, ghost, z/a.txt}` with the target `a.txt` in
recursive mode: the walk prints `root/a.txt` and `root/z/a.txt`, as it does when `locked` is
empty and as it does when `ghost` is not listed. -/
theorem unreadable_subtrees_skipped_witness :
    searchDirectory lockedFs 7 "a.txt".toList 1 0 3 "root".toList ⟨[], 0⟩
        = some ⟨[Line.found 7 "a.txt".toList "root/a.txt".toList,
                 Line.found 7 "a.txt".toList "root/z/a.txt".toList], 1⟩ ∧
      searchDirectory lockedFs 7 "a.txt".toList 1 0 3 "root".toList ⟨[], 0⟩
        = searchDirectory (setNode lockedFs "root/locked".toList (Node.directory (some [])))
            7 "a.txt".toList 1 0 3 "root".toList ⟨[], 0⟩ ∧
      searchDirectory lockedFs 7 "a.txt".toList 1 0 3 "root".toList ⟨[], 0⟩
        = searchDirectory
            (setNode lockedFs "root".toList (Node.directory (some
              (["a.txt".toList, "locked".toList, "ghost".toList, "z".toList].filter
                (fun x => decide (x ≠ "ghost".toList))))))
            7 "a.txt".toList 1 0 3 "root".toList ⟨[], 0⟩ :=
  ⟨by decide,
   (unreadable_subtrees_skipped lockedFs 7 "a.txt".toList 1 0 3 "root".toList ⟨[], 0⟩).1
      "root/locked".toList (by decide),
   (unreadable_subtrees_skipped lockedFs 7 "a.txt".toList 1 0 3 "root".toList ⟨[], 0⟩).2
      "root".toList "ghost".toList
      ["a.txt".toList, "locked".toList, "ghost".toList, "z".toList] (by decide) (by decide)⟩

/-! ## The child and the coordinator -/

theorem hitsDir_returns (fs : FileSystem) (N : CStr) (recursive ci : Int) (fuel : Nat)
    (root : CStr) (hfit : ∀ p, Under fs root p → p.length < MAX_PATH_LEN)
    (hfuel : MAX_PATH_LEN < fuel) : ∃ ps, hitsDir fs N recursive ci fuel root = some ps := by
  by_cases hr : recursive = 0
  · subst hr
    obtain ⟨ps, hps, _⟩ := hitsDir_flat fs N ci fuel root
      (fun p hp => hfit p (Under.here hp)) (by omega)
    exact ⟨ps, hps⟩
  · obtain ⟨ps, hps, _⟩ := hitsDir_recursive fs N recursive ci hr fuel root hfit
      (by omega) (by omega)
    exact ⟨ps, hps⟩

theorem child_eq (fs : FileSystem) (fuel pid : Nat) (root N : CStr) (recursive ci : Int)
    (v : Vars) :
    child fs fuel pid root N recursive ci v
      = (hitsDir fs N recursive ci fuel root).map (fun ps =>
          ((if ps = [] then v.foundInCurrentProcess else 1),
            v.stdout ++ ps.map (Line.found pid N))) := by
  unfold child
  rw [searchDirectory_eq]
  cases hitsDir fs N recursive ci fuel root with
  | none => rfl
  | some ps => rfl

theorem child_eq_alone (fs : FileSystem) (fuel pid : Nat) (root N : CStr) (recursive ci : Int)
    (v : Vars) (hv : v.foundInCurrentProcess = 0) :
    child fs fuel pid root N recursive ci v
      = (searchDirectory fs pid N recursive ci fuel root ⟨[], 0⟩).map
          (fun a => (a.fileFound, v.stdout ++ a.stdout)) := by
  rw [child_eq, searchDirectory_eq, hv]
  cases hitsDir fs N recursive ci fuel root with
  | none => rfl
  | some ps => simp [emit]

/-! ## A walk that enters the same directory again -/

theorem parentAfterWait_flag (v : Vars) (pid : Nat) (code : Int) (out : List Line) :
    (parentAfterWait v pid code out).foundInCurrentProcess = v.foundInCurrentProcess := by
  unfold parentAfterWait
  split_ifs <;> rfl

theorem mainLoop_keeps_flag (fs : FileSystem) (fork : Nat → Option Nat) (fuel : Nat)
    (root : CStr) (recursive ci : Int) (names : List CStr) :
    ∀ k v v2, mainLoop fs fork fuel root recursive ci names k v = some (LoopEnd.finished v2) →
      v2.foundInCurrentProcess = v.foundInCurrentProcess := by
  induction names with
  | nil =>
    intro k v v2 h
    rw [mainLoop] at h
    injection h with h
    injection h with h
    rw [h]
  | cons N rest ih =>
    intro k v v2 h
    rw [mainLoop] at h
    cases hf : fork k with
    | none =>
      rw [hf] at h
      simp at h
    | some pid =>
      rw [hf] at h
      simp only [] at h
      cases hc : child fs fuel pid root N recursive ci v with
      | none =>
        rw [hc] at h
        simp only [] at h
        rw [ih _ _ _ h]
      | some r =>
        obtain ⟨code, out⟩ := r
        rw [hc] at h
        simp only [] at h
        rw [ih _ _ _ h, parentAfterWait_flag]

theorem mainLoop_append (fs : FileSystem) (fork : Nat → Option Nat) (fuel : Nat)
    (root : CStr) (recursive ci : Int) (pre rest : List CStr) :
    ∀ k v v2, mainLoop fs fork fuel root recursive ci pre k v = some (LoopEnd.finished v2) →
      mainLoop fs fork fuel root recursive ci (pre ++ rest) k v
        = mainLoop fs fork fuel root recursive ci rest (k + pre.length) v2 := by
  induction pre with
  | nil =>
    intro k v v2 h
    rw [mainLoop] at h
    injection h with h
    injection h with h
    rw [h]
    rfl
  | cons N pre ih =>
    intro k v v2 h
    rw [mainLoop] at h
    rw [List.cons_append, mainLoop]
    cases hf : fork k with
    | none =>
      rw [hf] at h
      simp at h
    | some pid =>
      rw [hf] at h
      simp only [] at h ⊢
      cases hc : child fs fuel pid root N recursive ci v with
      | none =>
        rw [hc] at h
        simp only [] at h ⊢
        rw [ih _ _ _ h, List.length_cons]
        congr 1
        omega
      | some r =>
        obtain ⟨code, out⟩ := r
        rw [hc] at h
        simp only [] at h ⊢
        rw [ih _ _ _ h, List.length_cons]
        congr 1
        omega

/-- The loop of `main` runs to its end when every `fork` succeeds, whatever the children
do. -/
theorem mainLoop_finished (fs : FileSystem) (fork : Nat → Option Nat) (fuel : Nat)
    (root : CStr) (recursive ci : Int) (names : List CStr) :
    ∀ k v, (∀ i, i < names.length → (fork (k + i)).isSome) →
      ∃ v2, mainLoop fs fork fuel root recursive ci names k v = some (LoopEnd.finished v2) := by
  induction names with
  | nil =>
    intro k v _
    exact ⟨v, rfl⟩
  | cons N rest ih =>
    intro k v hfork
    have hf0 := hfork 0 (by simp)
    rw [Nat.add_zero] at hf0
    obtain ⟨pid, hpid⟩ := Option.isSome_iff_exists.mp hf0
    have hrest : ∀ i, i < rest.length → (fork (k + 1 + i)).isSome := fun i hi => by
      have := hfork (i + 1) (by simp; omega)
      rwa [show k + (i + 1) = k + 1 + i by omega] at this
    rw [mainLoop, hpid]
    simp only []
    cases child fs fuel pid root N recursive ci v with
    | none => exact ih (k + 1) _ hrest
    | some r => exact ih (k + 1) _ hrest

/-! ## The state of a walk that faults -/

theorem searchFile_shift (fs : FileSystem) (pid : Nat) (p N : CStr) (ci : Int)
    (pre : List Line) (w : Walk) :
    searchFile fs pid p N ci (shift pre w) = (searchFile fs pid p N ci w).map (shift pre) := by
  rw [searchFile_eq, searchFile_eq]
  cases hitsFile fs ci N p with
  | none => rfl
  | some ps => cases ps <;> simp [emit, shift]

theorem readdirLoopState_shift (fs : FileSystem) (pid : Nat) (N : CStr) (recursive ci : Int)
    (recurse : CStr → Walk → Walk × Bool) (pre : List Line)
    (hr : ∀ p w, recurse p (shift pre w) = (shift pre (recurse p w).1, (recurse p w).2))
    (d : CStr) (es : List CStr) (w : Walk) :
    readdirLoopState fs pid N recursive ci recurse d es (shift pre w)
      = (shift pre (readdirLoopState fs pid N recursive ci recurse d es w).1,
          (readdirLoopState fs pid N recursive ci recurse d es w).2) := by
  induction es generalizing w with
  | nil => rfl
  | cons e rest ih =>
    rw [readdirLoopState, readdirLoopState]
    by_cases hdot : e = dot ∨ e = dotdot
    · rw [if_pos hdot, if_pos hdot]
      exact ih w
    · rw [if_neg hdot, if_neg hdot]
      cases stat fs (fullPathOf d e) with
      | none => exact ih w
      | some m =>
        simp only []
        by_cases hdir : S_ISDIR m = true ∧ recursive ≠ 0
        · rw [if_pos hdir, if_pos hdir, hr]
          rcases hrec : recurse (fullPathOf d e) w with ⟨w1, b⟩
          cases b with
          | true => exact ih w1
          | false => rfl
        · rw [if_neg hdir, if_neg hdir, searchFile_shift]
          cases searchFile fs pid (fullPathOf d e) N ci w with
          | none => rfl
          | some w1 => exact ih w1

theorem searchDirectoryState_shift (fs : FileSystem) (pid : Nat) (N : CStr)
    (recursive ci : Int) (pre : List Line) (fuel : Nat) :
    ∀ d w, searchDirectoryState fs pid N recursive ci fuel d (shift pre w)
      = (shift pre (searchDirectoryState fs pid N recursive ci fuel d w).1,
          (searchDirectoryState fs pid N recursive ci fuel d w).2) := by
  induction fuel with
  | zero =>
    intro d w
    rfl
  | succ fuel ih =>
    intro d w
    rw [searchDirectoryState, searchDirectoryState]
    cases opendir fs d with
    | none => rfl
    | some es => exact readdirLoopState_shift fs pid N recursive ci _ pre ih d es w

/-- The state-keeping loop agrees with `readdirLoop`: the loop returns exactly when the
state is one of return, and then with that state. -/
theorem readdirLoop_eq_state (fs : FileSystem) (pid : Nat) (N : CStr) (recursive ci : Int)
    (recurse : CStr → Walk → Option Walk) (recurseState : CStr → Walk → Walk × Bool)
    (hr : ∀ p w, recurse p w
      = if (recurseState p w).2 = true then some (recurseState p w).1 else none)
    (d : CStr) (es : List CStr) (w : Walk) :
    readdirLoop fs pid N recursive ci recurse d es w
      = if (readdirLoopState fs pid N recursive ci recurseState d es w).2 = true
          then some (readdirLoopState fs pid N recursive ci recurseState d es w).1
          else none := by
  induction es generalizing w with
  | nil => rfl
  | cons e rest ih =>
    rw [readdirLoop, readdirLoopState]
    by_cases hdot : e = dot ∨ e = dotdot
    · rw [if_pos hdot, if_pos hdot]
      exact ih w
    · rw [if_neg hdot, if_neg hdot]
      cases stat fs (fullPathOf d e) with
      | none => exact ih w
      | some m =>
        simp only []
        by_cases hdir : S_ISDIR m = true ∧ recursive ≠ 0
        · rw [if_pos hdir, if_pos hdir, hr]
          rcases hrec : recurseState (fullPathOf d e) w with ⟨w1, b⟩
          cases b with
          | true => exact ih w1
          | false => rfl
        · rw [if_neg hdir, if_neg hdir]
          cases searchFile fs pid (fullPathOf d e) N ci w with
          | none => rfl
          | some w1 => exact ih w1

/-- The state-keeping walk agrees with `searchDirectory`. -/
theorem searchDirectory_eq_state (fs : FileSystem) (pid : Nat) (N : CStr)
    (recursive ci : Int) (fuel : Nat) :
    ∀ d w, searchDirectory fs pid N recursive ci fuel d w
      = if (searchDirectoryState fs pid N recursive ci fuel d w).2 = true
          then some (searchDirectoryState fs pid N recursive ci fuel d w).1
          else none := by
  induction fuel with
  | zero =>
    intro d w
    rfl
  | succ fuel ih =>
    intro d w
    rw [searchDirectory, searchDirectoryState]
    cases opendir fs d with
    | none => rfl
    | some es => exact readdirLoop_eq_state fs pid N recursive ci _ _ ih d es w

theorem killedChild_eq_alone (fs : FileSystem) (fuel pid : Nat) (root N : CStr)
    (recursive ci : Int) (v : Vars) (hv : v.foundInCurrentProcess = 0) :
    killedChild fs fuel pid root N recursive ci v
      = v.stdout ++ killedChild fs fuel pid root N recursive ci ⟨0, 0, []⟩ := by
  unfold killedChild
  rw [hv]
  have h := searchDirectoryState_shift fs pid N recursive ci v.stdout fuel root ⟨[], 0⟩
  have hs : shift v.stdout ⟨[], 0⟩ = ⟨v.stdout, 0⟩ := by simp [shift]
  rw [hs] at h
  rw [h]
  rfl

/-- C9. For every root, flags and list of file names, as long as `fork` succeeds the loop
of `main` reaches every position of the list, whatever the children for the earlier names
(`pre`) did: found something, found nothing, or were killed. The child started there runs
with a false found flag: whether it reaches `exit`, its exit status and the lines it adds to
standard output, also when it is killed, are those of `searchDirectory` for that name alone,
started from an empty output and the flag 0; and the loop goes on from that child's outcome
alone. -/
theorem task_isolation (fs : FileSystem) (fork : Nat → Option Nat) (fuel : Nat) (root : CStr)
    (recursive caseInsensitive : Int) (pre post : List CStr) (name : CStr)
    (hfork : ∀ i, i ≤ pre.length → (fork i).isSome) :
    ∃ v pid,
      mainLoop fs fork fuel root recursive caseInsensitive pre 0 ⟨0, 0, []⟩
        = some (LoopEnd.finished v) ∧
      fork pre.length = some pid ∧
      v.foundInCurrentProcess = 0 ∧
      child fs fuel pid root name recursive caseInsensitive v
        = (searchDirectory fs pid name recursive caseInsensitive fuel root ⟨[], 0⟩).map
            (fun a => (a.fileFound, v.stdout ++ a.stdout)) ∧
      killedChild fs fuel pid root name recursive caseInsensitive v
        = v.stdout ++ killedChild fs fuel pid root name recursive caseInsensitive ⟨0, 0, []⟩ ∧
      mainLoop fs fork fuel root recursive caseInsensitive (pre ++ name :: post) 0 ⟨0, 0, []⟩
        = match child fs fuel pid root name recursive caseInsensitive v with
          | none =>
            mainLoop fs fork fuel root recursive caseInsensitive post (pre.length + 1)
              ⟨v.fileFound, v.foundInCurrentProcess,
                killedChild fs fuel pid root name recursive caseInsensitive v⟩
          | some (code, out) =>
            mainLoop fs fork fuel root recursive caseInsensitive post (pre.length + 1)
              (parentAfterWait v pid code out) := by
  obtain ⟨v, hpre⟩ := mainLoop_finished fs fork fuel root recursive caseInsensitive pre 0
    ⟨0, 0, []⟩ (fun i hi => by rw [Nat.zero_add]; exact hfork i (by omega))
  obtain ⟨pid, hpid⟩ := Option.isSome_iff_exists.mp (hfork pre.length (by omega))
  have hv : v.foundInCurrentProcess = 0 :=
    mainLoop_keeps_flag fs fork fuel root recursive caseInsensitive pre 0 _ v hpre
  refine ⟨v, pid, hpre, hpid, hv,
    child_eq_alone fs fuel pid root name recursive caseInsensitive v hv,
    killedChild_eq_alone fs fuel pid root name recursive caseInsensitive v hv, ?_⟩
  rw [mainLoop_append fs fork fuel root recursive caseInsensitive pre _ 0 _ v hpre, mainLoop,
    Nat.zero_add, hpid]

set_option maxRecDepth 200000 in
/-- C9 at the scenario tree with the names `a.txt`, `b.txt` (after `a.txt` was found the
parent holds `fileFound = 1`, and the child for `b.txt` still reports not found), and at the
tree `loopRoot/{a.txt, bcdef/x}` (the child for `a.txt` prints its record and is killed, and
the loop goes on to the child for `b.txt`). -/
theorem task_isolation_witness :
    mainLoop scenarioFs (fun k => some (100 + k)) 3 "root".toList 1 0 ["a.txt".toList] 0
        ⟨0, 0, []⟩
      = some (LoopEnd.finished
          ⟨1, 0, [Line.found 100 "a.txt".toList "root/a.txt".toList, Line.terminated 100]⟩) ∧
    child scenarioFs 3 101 "root".toList "b.txt".toList 1 0
        ⟨1, 0, [Line.found 100 "a.txt".toList "root/a.txt".toList, Line.terminated 100]⟩
      = some (0, [Line.found 100 "a.txt".toList "root/a.txt".toList, Line.terminated 100]) ∧
    mainLoop loopFs (fun k => some (100 + k)) 3 loopRoot 1 0 ["a.txt".toList] 0 ⟨0, 0, []⟩
      = some (LoopEnd.finished
          ⟨0, 0, [Line.found 100 "a.txt".toList (loopRoot ++ "/a.txt".toList)]⟩) ∧
    child loopFs 3 101 loopRoot "b.txt".toList 1 0
        ⟨0, 0, [Line.found 100 "a.txt".toList (loopRoot ++ "/a.txt".toList)]⟩ = none ∧
    killedChild loopFs 3 101 loopRoot "b.txt".toList 1 0
        ⟨0, 0, [Line.found 100 "a.txt".toList (loopRoot ++ "/a.txt".toList)]⟩
      = [Line.found 100 "a.txt".toList (loopRoot ++ "/a.txt".toList)] ∧
    (∃ v pid,
      mainLoop scenarioFs (fun k => some (100 + k)) 3 "root".toList 1 0 ["a.txt".toList] 0
          ⟨0, 0, []⟩ = some (LoopEnd.finished v) ∧
      (fun k => some (100 + k)) ["a.txt".toList].length = some pid ∧
      v.foundInCurrentProcess = 0 ∧
      child scenarioFs 3 pid "root".toList "b.txt".toList 1 0 v
        = (searchDirectory scenarioFs pid "b.txt".toList 1 0 3 "root".toList ⟨[], 0⟩).map
            (fun a => (a.fileFound, v.stdout ++ a.stdout)) ∧
      killedChild scenarioFs 3 pid "root".toList "b.txt".toList 1 0 v
        = v.stdout ++ killedChild scenarioFs 3 pid "root".toList "b.txt".toList 1 0 ⟨0, 0, []⟩ ∧
      mainLoop scenarioFs (fun k => some (100 + k)) 3 "root".toList 1 0
          (["a.txt".toList] ++ "b.txt".toList :: []) 0 ⟨0, 0, []⟩
        = match child scenarioFs 3 pid "root".toList "b.txt".toList 1 0 v with
          | none =>
            mainLoop scenarioFs (fun k => some (100 + k)) 3 "root".toList 1 0 []
              (["a.txt".toList].length + 1)
              ⟨v.fileFound, v.foundInCurrentProcess,
                killedChild scenarioFs 3 pid "root".toList "b.txt".toList 1 0 v⟩
          | some (code, out) =>
            mainLoop scenarioFs (fun k => some (100 + k)) 3 "root".toList 1 0 []
              (["a.txt".toList].length + 1) (parentAfterWait v pid code out)) ∧
    (∃ v pid,
      mainLoop loopFs (fun k => some (100 + k)) 3 loopRoot 1 0 ["a.txt".toList] 0
          ⟨0, 0, []⟩ = some (LoopEnd.finished v) ∧
      (fun k => some (100 + k)) ["a.txt".toList].length = some pid ∧
      v.foundInCurrentProcess = 0 ∧
      child loopFs 3 pid loopRoot "b.txt".toList 1 0 v
        = (searchDirectory loopFs pid "b.txt".toList 1 0 3 loopRoot ⟨[], 0⟩).map
            (fun a => (a.fileFound, v.stdout ++ a.stdout)) ∧
      killedChild loopFs 3 pid loopRoot "b.txt".toList 1 0 v
        = v.stdout ++ killedChild loopFs 3 pid loopRoot "b.txt".toList 1 0 ⟨0, 0, []⟩ ∧
      mainLoop loopFs (fun k => some (100 + k)) 3 loopRoot 1 0
          (["a.txt".toList] ++ "b.txt".toList :: []) 0 ⟨0, 0, []⟩
        = match child loopFs 3 pid loopRoot "b.txt".toList 1 0 v with
          | none =>
            mainLoop loopFs (fun k => some (100 + k)) 3 loopRoot 1 0 []
              (["a.txt".toList].length + 1)
              ⟨v.fileFound, v.foundInCurrentProcess,
                killedChild loopFs 3 pid loopRoot "b.txt".toList 1 0 v⟩
          | some (code, out) =>
            mainLoop loopFs (fun k => some (100 + k)) 3 loopRoot 1 0 []
              (["a.txt".toList].length + 1) (parentAfterWait v pid code out)) :=
  ⟨by decide, by decide, by decide, by decide, by decide,
   task_isolation scenarioFs (fun k => some (100 + k)) 3 "root".toList 1 0
      ["a.txt".toList] [] "b.txt".toList (fun _ _ => rfl),
   task_isolation loopFs (fun k => some (100 + k)) 3 loopRoot 1 0
      ["a.txt".toList] [] "b.txt".toList (fun _ _ => rfl)⟩

theorem count_noFiles_found (pid : Nat) (N s : CStr) (ps : List CStr) :
    (ps.map (Line.found pid N)).count (Line.noFiles s) = 0 := by
  rw [List.count_eq_zero]
  intro h
  obtain ⟨p, _, hp⟩ := List.mem_map.mp h
  cases hp

theorem emit_stdout (pid : Nat) (N : CStr) (ps : List CStr) :
    (emit pid N ⟨[], 0⟩ ps).stdout = ps.map (Line.found pid N) := by
  simp [emit]

/-- The loop of `main` when every `fork` succeeds and every child exits: it runs to its
end, the overall flag is set exactly when it was set before or some child exited with a
non-zero status, and no summary line is printed inside the loop. -/
theorem mainLoop_spec (fs : FileSystem) (fork : Nat → Option Nat) (fuel : Nat) (root : CStr)
    (recursive ci : Int) (names : List CStr) :
    ∀ k v, v.foundInCurrentProcess = 0 →
      (∀ i, i < names.length → (fork (k + i)).isSome) →
      (∀ i pid N, names[i]? = some N → fork (k + i) = some pid →
        (searchDirectory fs pid N recursive ci fuel root ⟨[], 0⟩).isSome) →
      ∃ v2, mainLoop fs fork fuel root recursive ci names k v = some (LoopEnd.finished v2) ∧
        (v2.fileFound ≠ 0 ↔ (v.fileFound ≠ 0 ∨ ∃ i pid N a, names[i]? = some N ∧
          fork (k + i) = some pid ∧
          searchDirectory fs pid N recursive ci fuel root ⟨[], 0⟩ = some a ∧
          WEXITSTATUS a.fileFound ≠ 0)) ∧
        (∀ s, v2.stdout.count (Line.noFiles s) = v.stdout.count (Line.noFiles s)) := by
  induction names with
  | nil =>
    intro k v _ _ _
    refine ⟨v, rfl, ?_, fun _ => rfl⟩
    constructor
    · intro h
      exact Or.inl h
    · rintro (h | ⟨i, pid, N, a, h, _⟩)
      · exact h
      · simp at h
  | cons N rest ih =>
    intro k v hv hfork hexit
    have hf0 := hfork 0 (by simp)
    rw [Nat.add_zero] at hf0
    obtain ⟨pid, hpid⟩ := Option.isSome_iff_exists.mp hf0
    have he0 := hexit 0 pid N (by simp) (by rw [Nat.add_zero]; exact hpid)
    obtain ⟨a, ha⟩ := Option.isSome_iff_exists.mp he0
    have hchild := child_eq_alone fs fuel pid root N recursive ci v hv
    rw [ha] at hchild
    simp only [Option.map_some'] at hchild
    obtain ⟨v2, hloop, hflag, hcount⟩ := ih (k + 1)
      (parentAfterWait v pid a.fileFound (v.stdout ++ a.stdout))
      (by rw [parentAfterWait_flag]; exact hv)
      (fun i hi => by
        have := hfork (i + 1) (by simp; omega)
        rwa [show k + (i + 1) = k + 1 + i by omega] at this)
      (fun i p M hM hp => by
        apply hexit (i + 1) p M
        · simpa using hM
        · rwa [show k + (i + 1) = k + 1 + i by omega])
    refine ⟨v2, ?_, ?_, fun s => ?_⟩
    · rw [mainLoop, hpid]
      simp only []
      rw [hchild]
      exact hloop
    · rw [hflag]
      have hstep : (parentAfterWait v pid a.fileFound (v.stdout ++ a.stdout)).fileFound ≠ 0
          ↔ (v.fileFound ≠ 0 ∨ WEXITSTATUS a.fileFound ≠ 0) := by
        unfold parentAfterWait
        split_ifs with h1 h2
        · simp [h1]
        · simp [h2.1, h2.2]
        · have h3 : WEXITSTATUS a.fileFound = 0 := by
            by_contra h
            exact h1 h
          have h4 : v.fileFound ≠ 0 := fun h => h2 ⟨h3, h⟩
          simp [h3, h4]
      rw [hstep]
      constructor
      · rintro ((h | h) | ⟨i, p, M, b, hM, hp, hb, hw⟩)
        · exact Or.inl h
        · exact Or.inr ⟨0, pid, N, a, by simp, by rw [Nat.add_zero]; exact hpid, ha, h⟩
        · refine Or.inr ⟨i + 1, p, M, b, by simpa using hM, ?_, hb, hw⟩
          rwa [show k + (i + 1) = k + 1 + i by omega]
      · rintro (h | ⟨i, p, M, b, hM, hp, hb, hw⟩)
        · exact Or.inl (Or.inl h)
        · cases i with
          | zero =>
            rw [Nat.add_zero, hpid] at hp
            have hpp : pid = p := Option.some.inj hp
            subst hpp
            have hNM : N = M := by simpa using hM
            subst hNM
            rw [ha] at hb
            have hab : a = b := Option.some.inj hb
            subst hab
            exact Or.inl (Or.inr hw)
          | succ i =>
            refine Or.inr ⟨i, p, M, b, by simpa using hM, ?_, hb, hw⟩
            rwa [show k + (i + 1) = k + 1 + i by omega] at hp
    · rw [hcount s]
      have hout : a.stdout.count (Line.noFiles s) = 0 := by
        rw [searchDirectory_eq] at ha
        cases hps : hitsDir fs N recursive ci fuel root with
        | none =>
          rw [hps] at ha
          cases ha
        | some ps =>
          rw [hps] at ha
          simp only [Option.map_some', Option.some.injEq] at ha
          rw [← ha, emit_stdout]
          exact count_noFiles_found pid N s ps
      unfold parentAfterWait
      split_ifs
      · rw [List.count_append, List.count_append, hout]
        simp
      · simp only []
        rw [List.count_append, hout]
        rfl
      · simp only []
        rw [List.count_append, hout]
        rfl

theorem searchDirectory_isSome (fs : FileSystem) (pid : Nat) (N : CStr) (recursive ci : Int)
    (fuel : Nat) (root : CStr) (w : Walk)
    (hfit : ∀ p, Under fs root p → p.length < MAX_PATH_LEN) (hfuel : MAX_PATH_LEN < fuel) :
    (searchDirectory fs pid N recursive ci fuel root w).isSome := by
  obtain ⟨ps, hps⟩ := hitsDir_returns fs N recursive ci fuel root hfit hfuel
  rw [searchDirectory_eq, hps]
  rfl

/-- C4. For a search root and a non-empty list of file names, when every `fork` succeeds
and every child exits normally, the loop of `main` runs to its end and `main` returns; the
overall found flag is then non-zero if and only if the child of at least one file name
exited with a non-zero status (a later child that found nothing does not reset it), and the
summary line for the root stands on standard output once when the flag is zero and not at
all otherwise. -/
theorem coordinator_aggregation (fs : FileSystem) (fork : Nat → Option Nat) (fuel : Nat)
    (opts : List Char) (recursive caseInsensitive : Int) (root name : CStr)
    (names : List CStr)
    (hopts : getoptLoop opts 0 0 = some (recursive, caseInsensitive))
    (hfork : ∀ i, i < (name :: names).length → (fork i).isSome)
    (hexit : ∀ i pid N, (name :: names)[i]? = some N → fork i = some pid →
      (searchDirectory fs pid N recursive caseInsensitive fuel root ⟨[], 0⟩).isSome) :
    ∃ v e,
      mainLoop fs fork fuel root recursive caseInsensitive (name :: names) 0 ⟨0, 0, []⟩
        = some (LoopEnd.finished v) ∧
      (v.fileFound ≠ 0 ↔ ∃ i pid N a, (name :: names)[i]? = some N ∧ fork i = some pid ∧
        searchDirectory fs pid N recursive caseInsensitive fuel root ⟨[], 0⟩ = some a ∧
        WEXITSTATUS a.fileFound ≠ 0) ∧
      main fs fork fuel opts (root :: name :: names) = some e ∧
      e.status = 0 ∧
      e.stdout.count (Line.noFiles root) = (if v.fileFound = 0 then 1 else 0) := by
  obtain ⟨v, hloop, hflag, hcount⟩ := mainLoop_spec fs fork fuel root recursive
    caseInsensitive (name :: names) 0 ⟨0, 0, []⟩ rfl
    (fun i hi => by rw [Nat.zero_add]; exact hfork i hi)
    (fun i pid N hN hp => by
      rw [Nat.zero_add] at hp
      exact hexit i pid N hN hp)
  have hflag2 : v.fileFound ≠ 0 ↔ ∃ i pid N a, (name :: names)[i]? = some N ∧
      fork i = some pid ∧
      searchDirectory fs pid N recursive caseInsensitive fuel root ⟨[], 0⟩ = some a ∧
      WEXITSTATUS a.fileFound ≠ 0 := by
    rw [hflag]
    constructor
    · rintro (h | ⟨i, pid, N, a, hN, hp, ha, hw⟩)
      · exact absurd rfl h
      · rw [Nat.zero_add] at hp
        exact ⟨i, pid, N, a, hN, hp, ha, hw⟩
    · rintro ⟨i, pid, N, a, hN, hp, ha, hw⟩
      refine Or.inr ⟨i, pid, N, a, hN, ?_, ha, hw⟩
      rw [Nat.zero_add]
      exact hp
  have hc0 : v.stdout.count (Line.noFiles root) = 0 := by
    rw [hcount root]
    rfl
  by_cases hz : v.fileFound = 0
  · refine ⟨v, ⟨0, v.stdout ++ [Line.noFiles root], []⟩, hloop, hflag2, ?_, rfl, ?_⟩
    · unfold main
      rw [hopts]
      simp only []
      rw [hloop]
      simp only []
      rw [if_pos hz]
    · rw [if_pos hz]
      show (v.stdout ++ [Line.noFiles root]).count (Line.noFiles root) = 1
      rw [List.count_append, hc0]
      simp
  · refine ⟨v, ⟨0, v.stdout, []⟩, hloop, hflag2, ?_, rfl, ?_⟩
    · unfold main
      rw [hopts]
      simp only []
      rw [hloop]
      simp only []
      rw [if_neg hz]
    · rw [if_neg hz]
      exact hc0

/-- C4 at the scenario tree, started with `-R` for the names `a.txt` and `b.txt`: one is
found and one is not, the summary line is not printed; for `b.txt` alone it is printed. -/
theorem coordinator_aggregation_witness :
    main scenarioFs (fun k => some (100 + k)) 3 [Char.ofNat 82]
        ["root".toList, "a.txt".toList, "b.txt".toList]
      = some ⟨0, [Line.found 100 "a.txt".toList "root/a.txt".toList, Line.terminated 100], []⟩ ∧
    main scenarioFs (fun k => some (100 + k)) 3 [Char.ofNat 82]
        ["root".toList, "b.txt".toList]
      = some ⟨0, [Line.noFiles "root".toList], []⟩ ∧
    ∃ v e,
      mainLoop scenarioFs (fun k => some (100 + k)) 1025 "root".toList 1 0
          ["a.txt".toList, "b.txt".toList] 0 ⟨0, 0, []⟩
        = some (LoopEnd.finished v) ∧
      (v.fileFound ≠ 0 ↔ ∃ i pid N a, ["a.txt".toList, "b.txt".toList][i]? = some N ∧
        (fun k => some (100 + k)) i = some pid ∧
        searchDirectory scenarioFs pid N 1 0 1025 "root".toList ⟨[], 0⟩ = some a ∧
        WEXITSTATUS a.fileFound ≠ 0) ∧
      main scenarioFs (fun k => some (100 + k)) 1025 [Char.ofNat 82]
          ["root".toList, "a.txt".toList, "b.txt".toList] = some e ∧
      e.status = 0 ∧
      e.stdout.count (Line.noFiles "root".toList) = (if v.fileFound = 0 then 1 else 0) :=
  ⟨by decide, by decide,
   coordinator_aggregation scenarioFs (fun k => some (100 + k)) 1025 [Char.ofNat 82] 1 0
    "root".toList "a.txt".toList ["b.txt".toList] (by decide) (fun _ _ => rfl)
    (fun _ pid N _ _ => searchDirectory_isSome scenarioFs pid N 1 0 1025 "root".toList ⟨[], 0⟩
      (scenarioFs_under_fits "root".toList) (by decide))⟩

end MyFind
